import Mathlib

/-!
# Verification of the frostbite2 superbundle reader (`libfb2`)

A shallow embedding of the reader and decoder layer of `libfb2`
(`libfb2/utils.py` and `libfb2/sb.py`), together with theorems that settle
the specification claims about it.

Conventions of the embedding:

* A byte is a `Nat` (always `< 256` for real inputs); a byte string is a
  `List Nat`.
* A Python file object open on a fixed byte string, together with the
  wrapping `TypeReader`, is modelled by the `Reader` structure below: the
  field `data` holds the bytes of the file from the reader's base offset
  (`TypeReader._offset`) onward, `pos` and `limit` are the reader's
  position and limit relative to that base, and `magic` is the optional
  keystream of `DecryptingTypeReader` (`none` for a plain `TypeReader`).
* Fallible Python code is modelled in `Except PyErr`; each distinct kind
  of raised exception gets its own `PyErr` constructor so that theorems
  can tell error classes apart.
* Loops whose bound is not structural take a fuel argument; fuel
  exhaustion is a dedicated error that is unreachable for the fuel values
  the wrappers pass (the wrappers pass at least one more unit than the
  number of bytes the loop can consume).
-/

namespace FB2

/-- Kinds of exception the embedded code can raise.  Each constructor
corresponds to one `raise` site (or implicit Python exception) of the
source. -/
inductive PyErr where
  /-- `ValueError('Unexpected end of file')` in `TypeReader.read`: the
  underlying file returned fewer bytes than the (already clamped)
  requested length.  This is the spec's TruncationError. -/
  | truncation : PyErr
  /-- `TypeError` from `ord('')` in `TypeReader.read_byte` when `read(1)`
  returns the empty string (position at or past the limit). -/
  | typeError : PyErr
  /-- `ValueError('missing bstring delimiter')` in
  `TypeReader.read_bstring`. -/
  | missingBstringDelimiter : PyErr
  /-- `struct.error` in `TypeReader.read_st` when the bytes handed to
  `Struct.unpack` are fewer than the format requires. -/
  | structError : PyErr
  /-- `ValueError` from `UUID(bytes=...)` when fewer than 16 bytes were
  available. -/
  | uuidValueError : PyErr
  /-- `utils.py` raises `SBException` for a bad obfuscation header, but
  `SBException` is not defined or imported in that module, so Python
  actually raises `NameError` at those sites. -/
  | nameError : PyErr
  /-- `SBException('Unknown type marker %x (type=%d)')` in
  `SBParser.read_object`; carries the raw typecode byte and the masked
  code, the two numbers the message cites. -/
  | unknownTypeMarker (raw : Nat) (code : Nat) : PyErr
  /-- `RuntimeError('Garbage left in stream')` in `SBParser.parse`. -/
  | garbageLeftInStream : PyErr
  /-- `RuntimeError('Unexpected event %r')` in `SBParser.make_object`. -/
  | unexpectedEvent : PyErr
  /-- `AssertionError` from the `assert` statements in
  `SBParser.make_object`. -/
  | assertionError : PyErr
  /-- `StopIteration` escaping from `iterator.next()` on an exhausted
  event iterator. -/
  | stopIteration : PyErr
  /-- `IndexError` from `stack[-1]` or `stack.pop()` on an empty list in
  `SBParser.iterparse`. -/
  | indexError : PyErr
  /-- `KeyError` from a missing dictionary key subscript. -/
  | keyError : PyErr
  /-- `TypeError` from a call with unexpected, duplicate or missing
  keyword arguments (the `BundleFile(self, **bundle)` call), or from
  subscripting / iterating a value of the wrong type. -/
  | typeErrorCall : PyErr
  /-- The function body refers to a name (`self` in `iter_cas_file`) that
  is not bound in any enclosing scope: Python raises `NameError`. -/
  | nameErrorSelf : PyErr
  /-- The source loops forever at this point (`read_cstring` keeps
  receiving the empty string once the limit is reached, so the `\x00`
  test can never succeed).  Divergence is represented as this error. -/
  | divergence : PyErr
  /-- Fuel exhaustion of the embedding; unreachable for the fuel the
  wrappers pass. -/
  | outOfFuel : PyErr
  deriving DecidableEq, Repr

/-- Constants of `libfb2/utils.py`. -/
def DICE_HEADER : List Nat := [0x00, 0xd1, 0xce, 0x00]

def HASH_OFFSET : Nat := 0x08

def HASH_SIZE : Nat := 256

def MAGIC_OFFSET : Nat := 0x0128

def MAGIC_SIZE : Nat := 257

def MAGIC_XOR : Nat := 0x7b

def DATA_OFFSET : Nat := 0x022c

/-- State of a `TypeReader` / `DecryptingTypeReader`.  `data` holds the
underlying file's bytes starting at the reader's base offset
(`TypeReader._offset`); `pos` and `limit` are relative to that base.
`magic` is `none` for a plain `TypeReader` and `some keystream` for a
`DecryptingTypeReader` built over a file with the DICE header. -/
structure Reader where
  data : List Nat
  pos : Nat
  limit : Nat
  magic : Option (List Nat)
  deriving Repr, DecidableEq

namespace Reader

/-- `TypeReader.eof`: `self.pos >= self.limit`. -/
def eof (r : Reader) : Bool := decide (r.pos ≥ r.limit)

/-- `TypeReader.read`.  The requested length is clamped with
`min(length, self.limit - self.pos)` (or set to the whole remainder when
absent); the underlying file then yields the bytes at the current
position; if it yields fewer than the clamped length (the file is
shorter than the limit promised), `ValueError('Unexpected end of file')`
is raised. -/
def rawRead (r : Reader) (length? : Option Nat) : Except PyErr (List Nat × Reader) :=
  let length := match length? with
    | none => r.limit - r.pos
    | some n => min n (r.limit - r.pos)
  let rv := (r.data.drop r.pos).take length
  if rv.length ≠ length then .error .truncation
  else .ok (rv, { r with pos := r.pos + length })

/-- One byte of the decryption loop of `DecryptingTypeReader.read`:
`chr(b ^ self.magic[i % MAGIC_SIZE] ^ MAGIC_XOR)` with `i = start_pos + off`. -/
def xorMask (magic : List Nat) : Nat → List Nat → List Nat
  | _, [] => []
  | i, b :: bs => (b ^^^ magic.getD (i % MAGIC_SIZE) 0 ^^^ MAGIC_XOR) :: xorMask magic (i + 1) bs

/-- `read` as dispatched on the object: `TypeReader.read` when no
keystream is present, `DecryptingTypeReader.read` (the raw read followed
by the XOR unmasking loop started at `start_pos = self.pos`) otherwise. -/
def read (r : Reader) (length? : Option Nat) : Except PyErr (List Nat × Reader) :=
  match r.rawRead length? with
  | .error e => .error e
  | .ok (rv, r') =>
    match r.magic with
    | none => .ok (rv, r')
    | some m => .ok (xorMask m r.pos rv, r')

/-- `TypeReader.read_byte`: `ord(self.read(1))`.  `ord` of a length-one
string is its byte; `ord('')` raises `TypeError`. -/
def read_byte (r : Reader) : Except PyErr (Nat × Reader) :=
  match r.read (some 1) with
  | .error e => .error e
  | .ok ([b], r') => .ok (b, r')
  | .ok (_, _) => .error .typeError

end Reader

/-- The loop body of `TypeReader.read_varint`: accumulate 7 bits per
byte, little-endian groups, until a byte with the high bit clear. -/
def readVarintAux : Nat → Reader → Nat → Nat → Except PyErr (Nat × Reader)
  | 0, _, _, _ => .error .outOfFuel
  | fuel + 1, r, idx, acc =>
    match r.read_byte with
    | .error e => .error e
    | .ok (b, r') =>
      let acc' := acc ||| ((b &&& 0x7f) <<< (7 * idx))
      if b >>> 7 = 0 then .ok (acc', r')
      else readVarintAux fuel r' (idx + 1) acc'

/-- `TypeReader.read_varint`.  The Python loop is unbounded; it stops
when a byte has its high bit clear or `read_byte` raises.  After
`limit - pos` successful byte reads the position reaches the limit and
the next `read_byte` raises, so `limit - pos + 1` iterations always
suffice and the fuel case of the helper is unreachable. -/
def Reader.read_varint (r : Reader) : Except PyErr (Nat × Reader) :=
  readVarintAux (r.limit - r.pos + 1) r 0 0

/-- The loop body of `TypeReader.read_cstring`: read single characters
until `'\x00'`.  Once the position reaches the limit, `read(1)` returns
the empty string forever and the comparison with `'\x00'` can never
succeed: the source loops forever, which the embedding reports as the
`divergence` error. -/
def readCStringAux : Nat → Reader → List Nat → Except PyErr (List Nat × Reader)
  | 0, _, _ => .error .outOfFuel
  | fuel + 1, r, acc =>
    match r.read (some 1) with
    | .error e => .error e
    | .ok ([], _) => .error .divergence
    | .ok ([c], r') =>
      if c = 0 then .ok (acc.reverse, r')
      else readCStringAux fuel r' (c :: acc)
    | .ok (_, _) => .error .divergence

/-- `TypeReader.read_cstring`. -/
def Reader.read_cstring (r : Reader) : Except PyErr (List Nat × Reader) :=
  readCStringAux (r.limit - r.pos + 1) r []

/-- `TypeReader.read_bstring`: `rv = self.read(self.read_varint())`; the
result must be nonempty and end in a NUL, which is stripped. -/
def Reader.read_bstring (r : Reader) : Except PyErr (List Nat × Reader) :=
  match r.read_varint with
  | .error e => .error e
  | .ok (n, r') =>
    match r'.read (some n) with
    | .error e => .error e
    | .ok (rv, r'') =>
      if rv = [] ∨ rv.getLast? ≠ some 0 then .error .missingBstringDelimiter
      else .ok (rv.dropLast, r'')

/-- Value of a little-endian byte string. -/
def leNat : List Nat → Nat
  | [] => 0
  | b :: bs => b + 256 * leNat bs

/-- Two's-complement reading of an unsigned `w`-bit value, as
`struct.unpack` does for signed formats. -/
def toSigned (w : Nat) (n : Nat) : Int :=
  if n < 2 ^ (w - 1) then (n : Int) else (n : Int) - 2 ^ w

/-- `TypeReader.read_sst('l')`: unpack one little-endian signed 32-bit
integer.  `struct.unpack` raises when handed a string of the wrong
length, which happens when the clamped read returned fewer than 4
bytes. -/
def Reader.read_i32 (r : Reader) : Except PyErr (Int × Reader) :=
  match r.read (some 4) with
  | .error e => .error e
  | .ok (bs, r') =>
    if bs.length ≠ 4 then .error .structError
    else .ok (toSigned 32 (leNat bs), r')

/-- `TypeReader.read_sst('q')`: unpack one little-endian signed 64-bit
integer. -/
def Reader.read_i64 (r : Reader) : Except PyErr (Int × Reader) :=
  match r.read (some 8) with
  | .error e => .error e
  | .ok (bs, r') =>
    if bs.length ≠ 8 then .error .structError
    else .ok (toSigned 64 (leNat bs), r')

/-- `DecryptingTypeReader.__init__` over the full byte string of the
file.  A file beginning with the DICE header must carry the `'x'`
markers around the 256-byte hash and a complete 257-byte keystream; the
payload then starts at `DATA_OFFSET`.  Any other file is its own payload
with no keystream.  (The failing marker paths `raise SBException`, a
name `utils.py` never binds, so Python raises `NameError` there.) -/
def mkDecryptingTypeReader (file : List Nat) : Except PyErr Reader :=
  if file.take 4 = DICE_HEADER then
    if file.getD HASH_OFFSET 0 ≠ 0x78 then .error .nameError
    else if file.getD (HASH_OFFSET + 1 + HASH_SIZE) 0 ≠ 0x78 then .error .nameError
    else
      let magic := (file.drop MAGIC_OFFSET).take MAGIC_SIZE
      if magic.length ≠ MAGIC_SIZE then .error .nameError
      else .ok ⟨file.drop DATA_OFFSET, 0, file.length - DATA_OFFSET, some magic⟩
  else .ok ⟨file, 0, file.length, none⟩

end FB2

namespace FB2

/-! ## C1: the decrypting read XOR-unmasks with the captured keystream -/

theorem xorMask_length (m : List Nat) (i : Nat) (bs : List Nat) :
    (Reader.xorMask m i bs).length = bs.length := by
  induction bs generalizing i with
  | nil => rfl
  | cons b bs ih => simp [Reader.xorMask, ih]

theorem xorMask_getD (m : List Nat) (bs : List Nat) (start i : Nat)
    (h : i < bs.length) :
    (Reader.xorMask m start bs).getD i 0
      = bs.getD i 0 ^^^ m.getD ((start + i) % MAGIC_SIZE) 0 ^^^ MAGIC_XOR := by
  induction bs generalizing start i with
  | nil => simp at h
  | cons b bs ih =>
    cases i with
    | zero => simp [Reader.xorMask]
    | succ j =>
      have hj : j < bs.length := by simpa using h
      have := ih (start + 1) j hj
      simpa [Reader.xorMask, List.getD_cons_succ, Nat.add_assoc, Nat.add_comm 1 j,
        Nat.add_left_comm 1 j] using this

theorem take_drop_getD (data : List Nat) (pos len i : Nat)
    (h : i < ((data.drop pos).take len).length) :
    ((data.drop pos).take len).getD i 0 = data.getD (pos + i) 0 := by
  have hlen : i < len := by
    simp only [List.length_take, lt_min_iff] at h
    exact h.1
  rw [List.getD_eq_getElem?_getD, List.getD_eq_getElem?_getD,
      List.getElem?_take_of_lt hlen, List.getElem?_drop]

/-- Claim C1.  For every successful read of `n` bytes on a reader
constructed by `DecryptingTypeReader.__init__`: when a keystream was
captured (which happens exactly when the file begins with the DICE
header), the `i`-th returned byte is the `i`-th raw payload byte XOR
`magic[(stream_pos + i) mod 257]` XOR `0x7B`, where `stream_pos` is the
reader's logical position at the start of the read and `magic` is the
257-byte keystream captured at construction; when no keystream was
captured, the returned bytes are the raw bytes unchanged. -/
theorem decrypting_read_is_xor (file : List Nat) (r : Reader)
    (h1 : mkDecryptingTypeReader file = .ok r) (n : Nat) (out : List Nat) (r' : Reader)
    (h2 : r.read (some n) = .ok (out, r')) :
    (r.magic = none ↔ file.take 4 ≠ DICE_HEADER)
    ∧ (∀ m, r.magic = some m →
        m = (file.drop MAGIC_OFFSET).take MAGIC_SIZE ∧ m.length = MAGIC_SIZE
        ∧ r.data = file.drop DATA_OFFSET
        ∧ ∀ i, i < out.length →
            out.getD i 0
              = r.data.getD (r.pos + i) 0 ^^^ m.getD ((r.pos + i) % MAGIC_SIZE) 0 ^^^ MAGIC_XOR)
    ∧ (r.magic = none → out = (r.data.drop r.pos).take (min n (r.limit - r.pos))) := by
  unfold mkDecryptingTypeReader at h1
  by_cases hd : file.take 4 = DICE_HEADER
  · rw [if_pos hd] at h1
    by_cases hx1 : file.getD HASH_OFFSET 0 ≠ 0x78
    · rw [if_pos hx1] at h1; exact absurd h1 (by simp)
    rw [if_neg hx1] at h1
    by_cases hx2 : file.getD (HASH_OFFSET + 1 + HASH_SIZE) 0 ≠ 0x78
    · rw [if_pos hx2] at h1; exact absurd h1 (by simp)
    rw [if_neg hx2] at h1
    by_cases hm : ((file.drop MAGIC_OFFSET).take MAGIC_SIZE).length ≠ MAGIC_SIZE
    · rw [if_pos hm] at h1; exact absurd h1 (by simp)
    rw [if_neg hm] at h1
    have hr : r = ⟨file.drop DATA_OFFSET, 0, file.length - DATA_OFFSET,
        some ((file.drop MAGIC_OFFSET).take MAGIC_SIZE)⟩ := by
      cases h1; rfl
    subst hr
    simp only [Reader.read, Reader.rawRead] at h2
    set len := min n (file.length - DATA_OFFSET - 0) with hlen
    by_cases htr : (((file.drop DATA_OFFSET).drop 0).take len).length ≠ len
    · rw [if_pos htr] at h2; exact absurd h2 (by simp)
    rw [if_neg htr] at h2
    simp only [Except.ok.injEq, Prod.mk.injEq] at h2
    refine ⟨by simp [hd], ?_, by simp⟩
    intro m hmm
    simp only [Option.some.injEq] at hmm
    subst hmm
    refine ⟨rfl, by simpa using hm, rfl, ?_⟩
    intro i hi
    rw [← h2.1]
    rw [← h2.1] at hi
    rw [xorMask_getD _ _ _ _ (by rwa [xorMask_length] at hi)]
    rw [xorMask_length] at hi
    congr 2
    exact take_drop_getD _ _ _ _ hi
  · rw [if_neg hd] at h1
    have hr : r = ⟨file, 0, file.length, none⟩ := by cases h1; rfl
    subst hr
    simp only [Reader.read, Reader.rawRead] at h2
    set len := min n (file.length - 0) with hlen
    by_cases htr : ((file.drop 0).take len).length ≠ len
    · rw [if_pos htr] at h2; exact absurd h2 (by simp)
    rw [if_neg htr] at h2
    simp only [Except.ok.injEq, Prod.mk.injEq] at h2
    refine ⟨by simp [hd], by intro m hmm; simp at hmm, ?_⟩
    intro _
    exact h2.1.symm

end FB2

namespace FB2

/-- A concrete obfuscated file: DICE header, `'x'` markers around a
zero hash, an all-zero 257-byte keystream, and the three payload bytes
`01 02 03` (which therefore decrypt to `7a 79 78`). -/
def c1file : List Nat :=
  DICE_HEADER ++ List.replicate 4 0 ++ [0x78] ++ List.replicate 256 0 ++ [0x78]
    ++ List.replicate 30 0 ++ List.replicate 257 0 ++ List.replicate 3 0 ++ [1, 2, 3]

/-- The reader `DecryptingTypeReader.__init__` produces for `c1file`. -/
def c1reader : Reader := ⟨[1, 2, 3], 0, 3, some (List.replicate 257 0)⟩

/-- `c1reader` after reading all three payload bytes. -/
def c1readerAfter : Reader := ⟨[1, 2, 3], 3, 3, some (List.replicate 257 0)⟩

set_option maxRecDepth 40000 in
theorem decrypting_read_is_xor_witness :
    mkDecryptingTypeReader c1file = .ok c1reader
    ∧ c1reader.read (some 3) = .ok ([0x7a, 0x79, 0x78], c1readerAfter)
    ∧ ((c1reader.magic = none ↔ c1file.take 4 ≠ DICE_HEADER)
       ∧ (∀ m, c1reader.magic = some m →
           m = (c1file.drop MAGIC_OFFSET).take MAGIC_SIZE ∧ m.length = MAGIC_SIZE
           ∧ c1reader.data = c1file.drop DATA_OFFSET
           ∧ ∀ i, i < ([0x7a, 0x79, 0x78] : List Nat).length →
               ([0x7a, 0x79, 0x78] : List Nat).getD i 0
                 = c1reader.data.getD (c1reader.pos + i) 0
                     ^^^ m.getD ((c1reader.pos + i) % MAGIC_SIZE) 0 ^^^ MAGIC_XOR)
       ∧ (c1reader.magic = none →
           [0x7a, 0x79, 0x78]
             = (c1reader.data.drop c1reader.pos).take (min 3 (c1reader.limit - c1reader.pos)))) :=
  ⟨rfl, rfl, decrypting_read_is_xor c1file c1reader rfl 3 [0x7a, 0x79, 0x78] c1readerAfter rfl⟩

end FB2

namespace FB2

/-! ## The SB object decoder (`libfb2/sb.py`, `SBParser`) -/

/-- Decoded values.  `str` is the byte string of a bstring with its NUL
terminator stripped; `unknown` is the `Unknown(code, bytes)` wrapper;
`dict` holds the (key, value) bindings in insertion order, one binding
per key (see `dictSet`). -/
inductive Value where
  | null : Value
  | bool (b : Bool) : Value
  | i32 (n : Int) : Value
  | i64 (n : Int) : Value
  | str (s : List Nat) : Value
  | uuid (b : List Nat) : Value
  | sha1 (b : List Nat) : Value
  | unknown (code : Nat) (b : List Nat) : Value
  | blob (b : List Nat) : Value
  | list (xs : List Value) : Value
  | dict (kvs : List (List Nat × Value)) : Value

/-- `rv[key] = value` on a Python dict modelled as an insertion-ordered
association list: replace the existing binding or append a new one. -/
def dictSet (kvs : List (List Nat × Value)) (k : List Nat) (v : Value) :
    List (List Nat × Value) :=
  if kvs.any (fun p => p.1 == k) then kvs.map (fun p => if p.1 == k then (k, v) else p)
  else kvs ++ [(k, v)]

/-- The events `SBParser.read_object` (with `read_list`, `read_dict`,
`read_blob`) yields. -/
inductive Event where
  | value (v : Value)
  | list_start
  | list_item (idx : Nat)
  | list_end
  | dict_start
  | dict_key (k : List Nat)
  | dict_end
  | blob_start (n : Nat)
  | blob_chunk (b : List Nat)
  | blob_end

/-- Which of the four mutually recursive generators of `SBParser` is
running: `read_object` (with an optional already-read typecode), the
element loop of `read_list`, the entry loop of `read_dict`, or the chunk
loop of `read_blob`. -/
inductive ReadMode where
  | obj (tc? : Option Nat)
  | listBody (idx : Nat)
  | dictBody
  | blobChunks (toRead : Nat)

/-- The event stream of one object, computed eagerly: the list of events
the generator yields and the reader state after it finishes.  An
exception raised anywhere while producing the events is the stream's
result.  Fuel decreases on every nested generator entered and on every
loop iteration; it only bounds recursion depth plus collection sizes, so
any fuel past that is equivalent. -/
def readEv : Nat → ReadMode → Reader → Except PyErr (List Event × Reader)
  | 0, _, _ => .error .outOfFuel
  | fuel + 1, .obj tc?, r =>
    match (match tc? with | none => r.read_byte | some t => .ok (t, r)) with
    | .error e => .error e
    | .ok (raw, r1) =>
      -- flags = raw >> 5 is read and discarded by the source
      let code := raw &&& 0x1f
      if code = 0 then .ok ([.value .null], r1)
      else if code = 1 then
        match r1.read_varint with
        | .error e => .error e
        | .ok (_, r2) =>
          -- the size hint is discarded: the collection is delimited
          match readEv fuel (.listBody 0) r2 with
          | .error e => .error e
          | .ok (body, r3) => .ok (.list_start :: body, r3)
      else if code = 2 then
        match r1.read_varint with
        | .error e => .error e
        | .ok (_, r2) =>
          match readEv fuel .dictBody r2 with
          | .error e => .error e
          | .ok (body, r3) => .ok (.dict_start :: body, r3)
      else if code = 5 then
        match r1.read (some 8) with
        | .error e => .error e
        | .ok (b, r2) => .ok ([.value (.unknown 5 b)], r2)
      else if code = 6 then
        match r1.read_byte with
        | .error e => .error e
        | .ok (b, r2) => .ok ([.value (.bool (b != 0))], r2)
      else if code = 7 then
        match r1.read_bstring with
        | .error e => .error e
        | .ok (s, r2) => .ok ([.value (.str s)], r2)
      else if code = 8 then
        match r1.read_i32 with
        | .error e => .error e
        | .ok (n, r2) => .ok ([.value (.i32 n)], r2)
      else if code = 9 then
        match r1.read_i64 with
        | .error e => .error e
        | .ok (n, r2) => .ok ([.value (.i64 n)], r2)
      else if code = 15 then
        match r1.read (some 16) with
        | .error e => .error e
        | .ok (b, r2) =>
          if b.length ≠ 16 then .error .uuidValueError else .ok ([.value (.uuid b)], r2)
      else if code = 16 then
        match r1.read (some 20) with
        | .error e => .error e
        | .ok (b, r2) => .ok ([.value (.sha1 b)], r2)
      else if code = 19 then
        match r1.read_varint with
        | .error e => .error e
        | .ok (n, r2) =>
          match readEv fuel (.blobChunks n) r2 with
          | .error e => .error e
          | .ok (chunks, r3) => .ok (.blob_start n :: chunks, r3)
      else .error (.unknownTypeMarker raw code)
  | fuel + 1, .listBody idx, r =>
    match r.read_byte with
    | .error e => .error e
    | .ok (tc, r1) =>
      if tc = 0 then .ok ([.list_end], r1)
      else
        match readEv fuel (.obj (some tc)) r1 with
        | .error e => .error e
        | .ok (evs, r2) =>
          match readEv fuel (.listBody (idx + 1)) r2 with
          | .error e => .error e
          | .ok (rest, r3) => .ok (.list_item idx :: (evs ++ rest), r3)
  | fuel + 1, .dictBody, r =>
    match r.read_byte with
    | .error e => .error e
    | .ok (tc, r1) =>
      if tc = 0 then .ok ([.dict_end], r1)
      else
        match r1.read_cstring with
        | .error e => .error e
        | .ok (k, r2) =>
          match readEv fuel (.obj (some tc)) r2 with
          | .error e => .error e
          | .ok (evs, r3) =>
            match readEv fuel .dictBody r3 with
            | .error e => .error e
            | .ok (rest, r4) => .ok (.dict_key k :: (evs ++ rest), r4)
  | fuel + 1, .blobChunks toRead, r =>
    if toRead = 0 then .ok ([.blob_end], r)
    else
      let readNow := min toRead 4096
      match r.read (some readNow) with
      | .error e => .error e
      | .ok (b, r1) =>
        match readEv fuel (.blobChunks (toRead - readNow)) r1 with
        | .error e => .error e
        | .ok (rest, r2) => .ok (.blob_chunk b :: rest, r2)

mutual

/-- `SBParser.make_object`: pull one event; a `value` event is its own
result; `list_start` / `dict_start` / `blob_start` enter the matching
collection loop; anything else raises
`RuntimeError('Unexpected event %r')`; an exhausted iterator lets
`StopIteration` escape.  The returned suffix is the part of the event
stream the call did not consume (strictly shorter than the input). -/
def makeObject : (evs : List Event) →
    Except PyErr (Value × { rest : List Event // rest.length < evs.length })
  | [] => .error .stopIteration
  | .value v :: rest => .ok (v, ⟨rest, by simp⟩)
  | .list_start :: rest =>
    match makeListItems rest with
    | .error e => .error e
    | .ok (vs, ⟨rest', h⟩) => .ok (.list vs, ⟨rest', by simp; omega⟩)
  | .dict_start :: rest =>
    match makeDictItems rest with
    | .error e => .error e
    | .ok (kvs, ⟨rest', h⟩) =>
      .ok (.dict (kvs.foldl (fun m kv => dictSet m kv.1 kv.2) []), ⟨rest', by simp; omega⟩)
  | .blob_start _ :: rest =>
    match makeBlobChunks rest with
    | .error e => .error e
    | .ok (cs, ⟨rest', h⟩) => .ok (.blob cs.flatten, ⟨rest', by simp; omega⟩)
  | _ :: _ => .error .unexpectedEvent
termination_by evs => evs.length

/-- The list loop of `make_object`: consume events until `list_end` (or
until the iterator is exhausted, which ends the loop without error, as
Python's `for` does), materializing one element after each `list_item`. -/
def makeListItems : (evs : List Event) →
    Except PyErr (List Value × { rest : List Event // rest.length ≤ evs.length })
  | [] => .ok ([], ⟨[], by simp⟩)
  | .list_end :: rest => .ok ([], ⟨rest, by simp⟩)
  | .list_item _ :: rest =>
    match makeObject rest with
    | .error e => .error e
    | .ok (v, ⟨rest1, h1⟩) =>
      match makeListItems rest1 with
      | .error e => .error e
      | .ok (vs, ⟨rest2, h2⟩) => .ok (v :: vs, ⟨rest2, by simp; omega⟩)
  | _ :: _ => .error .assertionError
termination_by evs => evs.length

/-- The dict loop of `make_object`: after each `dict_key`, materialize
the value; the bindings are returned in read order. -/
def makeDictItems : (evs : List Event) →
    Except PyErr (List (List Nat × Value) × { rest : List Event // rest.length ≤ evs.length })
  | [] => .ok ([], ⟨[], by simp⟩)
  | .dict_end :: rest => .ok ([], ⟨rest, by simp⟩)
  | .dict_key k :: rest =>
    match makeObject rest with
    | .error e => .error e
    | .ok (v, ⟨rest1, h1⟩) =>
      match makeDictItems rest1 with
      | .error e => .error e
      | .ok (kvs, ⟨rest2, h2⟩) => .ok ((k, v) :: kvs, ⟨rest2, by simp; omega⟩)
  | _ :: _ => .error .assertionError
termination_by evs => evs.length

/-- The blob loop of `make_object`: collect `blob_chunk` payloads until
`blob_end`. -/
def makeBlobChunks : (evs : List Event) →
    Except PyErr (List (List Nat) × { rest : List Event // rest.length ≤ evs.length })
  | [] => .ok ([], ⟨[], by simp⟩)
  | .blob_end :: rest => .ok ([], ⟨rest, by simp⟩)
  | .blob_chunk b :: rest =>
    match makeBlobChunks rest with
    | .error e => .error e
    | .ok (cs, ⟨rest', h⟩) => .ok (b :: cs, ⟨rest', by simp; omega⟩)
  | _ :: _ => .error .assertionError
termination_by evs => evs.length

end

/-- `make_object` with the consumption bound erased from the type. -/
def makeObjectP (evs : List Event) : Except PyErr (Value × List Event) :=
  match makeObject evs with
  | .error e => .error e
  | .ok (v, rest) => .ok (v, rest.val)

/-- `SBParser.parse`: generate one object's events, materialize the
object, then call `gen.next()` once more; if the generator is exhausted
the object is returned, otherwise `RuntimeError('Garbage left in
stream')` is raised.  The generator holds exactly the one object's
events, all of which `make_object` consumes, so the error branch never
fires; in particular, bytes remaining in the reader after the object are
not detected. -/
def SBParser.parse (fuel : Nat) (r : Reader) : Except PyErr (Value × Reader) :=
  match readEv fuel (.obj none) r with
  | .error e => .error e
  | .ok (events, r') =>
    match makeObjectP events with
    | .error e => .error e
    | .ok (v, rest) => if rest.isEmpty then .ok (v, r') else .error .garbageLeftInStream

/-- A label on the selector path stack: a list index or a dict key. -/
inductive Label where
  | idx (n : Nat)
  | key (k : List Nat)
  deriving DecidableEq, Repr

/-- One frame of `iterparse`'s path stack: `none` right after a
collection is entered, `some label` once a `list_item` or `dict_key`
event has labelled it. -/
abbrev StackFrame := Option Label

/-- One parsed selector: `none` entries are `*` wildcards. -/
abbrev Selector := List (Option Label)

/-- `SBParser.selector_matches`: stacks of the wrong depth never match;
otherwise every non-wildcard selector segment must equal the
corresponding stack frame. -/
def selector_matches (sel : Selector) (stack : List StackFrame) : Bool :=
  if stack.length ≠ sel.length then false
  else (stack.zip sel).all fun p =>
    match p.2 with
    | none => true
    | some l => p.1 == some l

/-- The predicate built by `SBParser.make_selector_function`: true when
any of the parsed selectors matches the stack. -/
def selectorAnyMatches (sels : List Selector) (stack : List StackFrame) : Bool :=
  sels.any fun sel => selector_matches sel stack

/-- Digit-string to number, as Python's `int` on a digit string. -/
def digitsToNat (part : List Nat) : Nat :=
  part.foldl (fun a c => a * 10 + (c - 0x30)) 0

/-- `SBParser.parse_selector` over the already-dot-split parts of one
selector expression: `*` becomes a wildcard, an all-digit part a list
index, anything else a dict key. -/
def parse_selector (parts : List (List Nat)) : Selector :=
  parts.map fun part =>
    if part == [0x2a] then none
    else if !part.isEmpty && part.all (fun c => decide (0x30 ≤ c) && decide (c ≤ 0x39)) then
      some (.idx (digitsToNat part))
    else some (.key part)

/-- The event-walking loop of `SBParser.iterparse`: maintain the path
stack and, whenever the stack matches a selector at the start of a
value, collection or blob, materialize that subtree from the same event
stream and yield it. -/
def iterParseLoop (sels : List Selector) : List StackFrame → (evs : List Event) →
    Except PyErr (List Value)
  | _, [] => .ok []
  | stack, e :: rest =>
    match e with
    | .list_start | .dict_start =>
      if selectorAnyMatches sels stack then
        match makeObject (e :: rest) with
        | .error err => .error err
        | .ok (v, ⟨rest', hr⟩) =>
          match iterParseLoop sels stack rest' with
          | .error err => .error err
          | .ok vs => .ok (v :: vs)
      else iterParseLoop sels (stack ++ [none]) rest
    | .list_item i =>
      if stack.isEmpty then .error .indexError
      else iterParseLoop sels (stack.dropLast ++ [some (.idx i)]) rest
    | .dict_key k =>
      if stack.isEmpty then .error .indexError
      else iterParseLoop sels (stack.dropLast ++ [some (.key k)]) rest
    | .list_end | .dict_end =>
      if stack.isEmpty then .error .indexError
      else iterParseLoop sels stack.dropLast rest
    | _ =>
      if selectorAnyMatches sels stack then
        match makeObject (e :: rest) with
        | .error err => .error err
        | .ok (v, ⟨rest', hr⟩) =>
          match iterParseLoop sels stack rest' with
          | .error err => .error err
          | .ok vs => .ok (v :: vs)
      else iterParseLoop sels stack rest
termination_by _ evs => evs.length

/-- `SBParser.iterparse` with parsed selectors, the yielded subtrees
collected into a list.  (The Python generator yields lazily; on an event
stream produced without error the collected sequence is the same.) -/
def SBParser.iterparse (fuel : Nat) (sels : List Selector) (r : Reader) :
    Except PyErr (List Value) :=
  match readEv fuel (.obj none) r with
  | .error e => .error e
  | .ok (events, _) => iterParseLoop sels [] events

/-- `sb.load` on a byte string: build a `DecryptingTypeReader` and parse
one object. -/
def load (fuel : Nat) (file : List Nat) : Except PyErr (Value × Reader) :=
  match mkDecryptingTypeReader file with
  | .error e => .error e
  | .ok r => SBParser.parse fuel r

/-- `sb.iterload` on a byte string with parsed selectors. -/
def iterload (fuel : Nat) (file : List Nat) (sels : List Selector) :
    Except PyErr (List Value) :=
  match mkDecryptingTypeReader file with
  | .error e => .error e
  | .ok r => SBParser.iterparse fuel sels r

end FB2

namespace FB2

/-! ## C4: the varint decoder -/

/-- `bytes` is a varint encoding: nonempty, every byte below 0x100, all
continuation bytes (every byte but the last) with the high bit set, the
final byte with the high bit clear. -/
def wfVarint : List Nat → Bool
  | [] => false
  | [b] => decide (b < 0x80)
  | b :: rest => (decide (0x80 ≤ b) && decide (b < 0x100)) && wfVarint rest

/-- The value an encoding denotes, starting at 7-bit group `idx`: the OR
of the 7-bit groups shifted into place, exactly as the decoder's
accumulator collects them. -/
def varintValue : Nat → List Nat → Nat
  | _, [] => 0
  | idx, b :: bs => ((b &&& 0x7f) <<< (7 * idx)) ||| varintValue (idx + 1) bs

theorem read_byte_cons (r : Reader) (b : Nat) (bs : List Nat)
    (hm : r.magic = none) (hd : r.data.drop r.pos = b :: bs)
    (hl : r.limit = r.data.length) :
    r.read_byte = .ok (b, { r with pos := r.pos + 1 }) := by
  have hlen : r.data.length - r.pos = bs.length + 1 := by
    have h := congrArg List.length hd
    simp only [List.length_drop, List.length_cons] at h
    omega
  have hmin : min 1 (r.limit - r.pos) = 1 := by rw [hl]; omega
  simp [Reader.read_byte, Reader.read, Reader.rawRead, hmin, hd, hm]

theorem readVarintAux_encoding (enc : List Nat) :
    ∀ (body : List Nat) (r : Reader) (fuel idx acc : Nat),
      r.magic = none → r.data.drop r.pos = enc ++ body → r.limit = r.data.length →
      wfVarint enc = true → enc.length ≤ fuel →
      readVarintAux fuel r idx acc =
        .ok (acc ||| varintValue idx enc, { r with pos := r.pos + enc.length }) := by
  induction enc with
  | nil => intro _ _ _ _ _ _ _ _ h _; exact absurd h (by simp [wfVarint])
  | cons b rest ih =>
    intro body r fuel idx acc hm hd hl hwf hfuel
    obtain ⟨fuel, rfl⟩ : ∃ f, fuel = f + 1 := by
      cases fuel with
      | zero => simp at hfuel
      | succ f => exact ⟨f, rfl⟩
    have hb := read_byte_cons r b (rest ++ body) hm (by simpa using hd) hl
    cases rest with
    | nil =>
      have hblt : b < 0x80 := by simpa [wfVarint] using hwf
      have hshift : b >>> 7 = 0 := by
        rw [Nat.shiftRight_eq_div_pow]
        omega
      simp [readVarintAux, hb, hshift, varintValue, Nat.or_zero]
    | cons c rest' =>
      have hwf' : (0x80 ≤ b ∧ b < 0x100) ∧ wfVarint (c :: rest') = true := by
        simpa [wfVarint] using hwf
      have hshift : b >>> 7 ≠ 0 := by
        rw [Nat.shiftRight_eq_div_pow]
        omega
      have hd' : ({ r with pos := r.pos + 1 } : Reader).data.drop (r.pos + 1)
          = (c :: rest') ++ body := by
        have : r.data.drop (r.pos + 1) = (r.data.drop r.pos).drop 1 := by
          rw [List.drop_drop]
        simpa [this, hd]
      have := ih body { r with pos := r.pos + 1 } fuel (idx + 1)
        (acc ||| ((b &&& 0x7f) <<< (7 * idx))) hm hd' hl hwf'.2 (by simpa using hfuel)
      simp only [readVarintAux, hb, if_neg hshift]
      rw [this]
      simp only [varintValue, List.length_cons, Except.ok.injEq, Prod.mk.injEq,
        Reader.mk.injEq, Nat.or_assoc, true_and, and_true]
      omega

/-- Claim C4 (amended).  The varint decoder accepts every encoding of
its value — including non-canonical encodings with redundant
continuation bytes — of any byte length whatsoever, consuming exactly
the encoding and returning the OR of its shifted 7-bit groups.  (The
source has no length cap, so the claim's "rejects encodings longer than
10 bytes" part is refuted by `read_varint_no_length_cap`.) -/
theorem read_varint_accepts_any_encoding (enc body : List Nat) (r : Reader)
    (h1 : r.magic = none) (h2 : r.data.drop r.pos = enc ++ body)
    (h3 : r.limit = r.data.length) (h4 : wfVarint enc = true) :
    Reader.read_varint r = .ok (varintValue 0 enc, { r with pos := r.pos + enc.length }) := by
  have hfuel : enc.length ≤ r.limit - r.pos + 1 := by
    have h := congrArg List.length h2
    simp only [List.length_drop, List.length_append] at h
    omega
  have := readVarintAux_encoding enc body r (r.limit - r.pos + 1) 0 0 h1 h2 h3 h4 hfuel
  rw [Reader.read_varint, this, Nat.zero_or]

/-- A redundant 3-byte encoding of the value 1 (`81 80 00`). -/
def c4enc : List Nat := [0x81, 0x80, 0x00]

theorem read_varint_accepts_any_encoding_witness :
    wfVarint c4enc = true
    ∧ Reader.read_varint ⟨c4enc ++ [7], 0, 4, none⟩
        = .ok (varintValue 0 c4enc, ⟨c4enc ++ [7], 3, 4, none⟩)
    ∧ varintValue 0 c4enc = 1 :=
  ⟨by decide,
   read_varint_accepts_any_encoding c4enc [7] ⟨c4enc ++ [7], 0, 4, none⟩
     rfl rfl (by decide) (by decide),
   by decide⟩

/-- An 11-byte varint encoding (ten continuation bytes `80` then `01`). -/
def c4long : List Nat := List.replicate 10 0x80 ++ [0x01]

/-- Counterexample to claim C4 as stated: the decoder does not reject
encodings longer than 10 bytes; this 11-byte encoding is accepted and
decodes to `2^70`. -/
theorem read_varint_no_length_cap :
    Reader.read_varint ⟨c4long, 0, 11, none⟩ = .ok (2 ^ 70, ⟨c4long, 11, 11, none⟩)
    ∧ ∀ e : PyErr, Reader.read_varint ⟨c4long, 0, 11, none⟩ ≠ .error e := by
  have h : Reader.read_varint ⟨c4long, 0, 11, none⟩
      = .ok (2 ^ 70, ⟨c4long, 11, 11, none⟩) := by
    rw [show (2 ^ 70 : Nat) = 1180591620717411303424 from rfl]
    rfl
  exact ⟨h, fun e hc => by rw [h] at hc; exact Except.noConfusion hc⟩

end FB2

namespace FB2

/-! ## C6: unknown typecodes -/

/-- Claim C6.  For any typecode byte whose low 5 bits are not one of the
eleven handled codes, `read_object` fails with the unknown-type-marker
error carrying both the raw byte and the masked code — both when the
byte is handed in by a collection loop and when it is read at top level
(and then `parse` fails the same way). -/
theorem read_object_unknown_typecode (fuel : Nat) (r : Reader) (b : Nat)
    (hb : b < 256)
    (hcode : (b &&& 0x1f) ∉ ([0, 1, 2, 5, 6, 7, 8, 9, 15, 16, 19] : List Nat)) :
    readEv (fuel + 1) (.obj (some b)) r = .error (.unknownTypeMarker b (b &&& 0x1f))
    ∧ ∀ r', r.read_byte = .ok (b, r') →
        readEv (fuel + 1) (.obj none) r = .error (.unknownTypeMarker b (b &&& 0x1f))
        ∧ SBParser.parse (fuel + 1) r = .error (.unknownTypeMarker b (b &&& 0x1f)) := by
  simp only [List.mem_cons, List.not_mem_nil, not_or, or_false] at hcode
  obtain ⟨h0, h1, h2, h5, h6, h7, h8, h9, h15, h16, h19⟩ := hcode
  constructor
  · simp [readEv, h0, h1, h2, h5, h6, h7, h8, h9, h15, h16, h19]
  · intro r' hr'
    have hobj : readEv (fuel + 1) (.obj none) r
        = .error (.unknownTypeMarker b (b &&& 0x1f)) := by
      simp [readEv, hr', h0, h1, h2, h5, h6, h7, h8, h9, h15, h16, h19]
    exact ⟨hobj, by simp [SBParser.parse, hobj]⟩

/-- A reader over the single byte `1C`. -/
def c6reader : Reader := ⟨[0x1c], 0, 1, none⟩

theorem read_object_unknown_typecode_witness :
    (0x1c < 256 ∧ (0x1c &&& 0x1f) ∉ ([0, 1, 2, 5, 6, 7, 8, 9, 15, 16, 19] : List Nat))
    ∧ readEv 5 (.obj (some 0x1c)) c6reader = .error (.unknownTypeMarker 0x1c 0x1c)
    ∧ readEv 5 (.obj none) c6reader = .error (.unknownTypeMarker 0x1c 0x1c)
    ∧ SBParser.parse 5 c6reader = .error (.unknownTypeMarker 0x1c 0x1c) :=
  ⟨⟨by norm_num, by decide⟩,
   (read_object_unknown_typecode 4 c6reader 0x1c (by norm_num) (by decide)).1,
   ((read_object_unknown_typecode 4 c6reader 0x1c (by norm_num) (by decide)).2
     ⟨[0x1c], 1, 1, none⟩ rfl).1,
   ((read_object_unknown_typecode 4 c6reader 0x1c (by norm_num) (by decide)).2
     ⟨[0x1c], 1, 1, none⟩ rfl).2⟩

/-! ## C3: trailing bytes after the top-level object -/

/-- Claim C3 is a code bug: `parse`'s garbage check inspects only the
event generator, which `make_object` always exhausts, so trailing bytes
in the reader are not detected.  On the three-byte input `06 01 2a`
(bool `true` followed by the trailing byte `2a`), `sb.load` returns the
decoded object with the reader stopped one byte short of the limit — no
trailing-data error is raised. -/
theorem parse_ignores_trailing_data :
    load 9 [0x06, 0x01, 0x2a] = .ok (.bool true, ⟨[0x06, 0x01, 0x2a], 2, 3, none⟩)
    ∧ (⟨[0x06, 0x01, 0x2a], 2, 3, none⟩ : Reader).eof = false := by
  have h0 : mkDecryptingTypeReader [0x06, 0x01, 0x2a]
      = .ok ⟨[0x06, 0x01, 0x2a], 0, 3, none⟩ := rfl
  have h1 : readEv 9 (.obj none) ⟨[0x06, 0x01, 0x2a], 0, 3, none⟩
      = .ok ([.value (.bool true)], ⟨[0x06, 0x01, 0x2a], 2, 3, none⟩) := rfl
  constructor
  · simp only [load, h0, SBParser.parse, h1]
    simp [makeObjectP, makeObject]
  · rfl

/-! ## C5: a payload that is exactly the obfuscation prefix -/

theorem read_byte_at_limit (r : Reader) (h : r.limit ≤ r.pos) :
    r.read_byte = .error .typeError := by
  have hmin : min 1 (r.limit - r.pos) = 0 := by omega
  cases hm : r.magic with
  | none => simp [Reader.read_byte, Reader.read, Reader.rawRead, hmin, hm]
  | some m => simp [Reader.read_byte, Reader.read, Reader.rawRead, hmin, hm, Reader.xorMask]

/-- Claim C5 (amended).  For an obfuscated input that is exactly the
obfuscation prefix (no payload), the constructed reader reports `eof`
immediately, and decoding fails — but with the `TypeError` of `ord` on
an empty read, not with the truncation error: `read(1)` clamps the
request to the zero remaining bytes and succeeds, so the short-read
check never fires (see `decode_empty_payload_not_truncation`). -/
theorem decode_empty_payload_fails (file : List Nat) (r : Reader) (fuel : Nat)
    (hlen : file.length = DATA_OFFSET) (hdice : file.take 4 = DICE_HEADER)
    (hr : mkDecryptingTypeReader file = .ok r) :
    r.eof = true ∧ SBParser.parse (fuel + 1) r = .error .typeError := by
  unfold mkDecryptingTypeReader at hr
  rw [if_pos hdice] at hr
  by_cases hx1 : file.getD HASH_OFFSET 0 ≠ 0x78
  · rw [if_pos hx1] at hr; exact absurd hr (by simp)
  rw [if_neg hx1] at hr
  by_cases hx2 : file.getD (HASH_OFFSET + 1 + HASH_SIZE) 0 ≠ 0x78
  · rw [if_pos hx2] at hr; exact absurd hr (by simp)
  rw [if_neg hx2] at hr
  by_cases hm : ((file.drop MAGIC_OFFSET).take MAGIC_SIZE).length ≠ MAGIC_SIZE
  · rw [if_pos hm] at hr; exact absurd hr (by simp)
  rw [if_neg hm] at hr
  have hrr : r = ⟨file.drop DATA_OFFSET, 0, file.length - DATA_OFFSET,
      some ((file.drop MAGIC_OFFSET).take MAGIC_SIZE)⟩ := by cases hr; rfl
  subst hrr
  have hlim : file.length - DATA_OFFSET = 0 := by omega
  have hbyte : Reader.read_byte ⟨file.drop DATA_OFFSET, 0, file.length - DATA_OFFSET,
      some ((file.drop MAGIC_OFFSET).take MAGIC_SIZE)⟩ = .error .typeError :=
    read_byte_at_limit _ (by simp [hlim])
  refine ⟨by simp [Reader.eof, hlim], ?_⟩
  simp [SBParser.parse, readEv, hbyte]

/-- A file that is exactly the 0x22C-byte obfuscation prefix: DICE
header, `'x'` markers around a zero hash, a zero keystream, padding up
to `DATA_OFFSET`, and no payload at all. -/
def c5file : List Nat :=
  DICE_HEADER ++ List.replicate 4 0 ++ [0x78] ++ List.replicate 256 0 ++ [0x78]
    ++ List.replicate 30 0 ++ List.replicate 257 0 ++ List.replicate 3 0

/-- The reader built over `c5file`: empty payload, limit 0. -/
def c5reader : Reader := ⟨[], 0, 0, some (List.replicate 257 0)⟩

set_option maxRecDepth 40000 in
theorem decode_empty_payload_fails_witness :
    (c5file.length = DATA_OFFSET ∧ c5file.take 4 = DICE_HEADER
      ∧ mkDecryptingTypeReader c5file = .ok c5reader)
    ∧ c5reader.eof = true ∧ SBParser.parse 9 c5reader = .error .typeError :=
  ⟨⟨by decide, rfl, rfl⟩,
   decode_empty_payload_fails c5file c5reader 8 (by decide) rfl rfl⟩

set_option maxRecDepth 40000 in
/-- Counterexample to claim C5 as stated: on the prefix-only input,
decoding does not fail with the truncation error (it fails with the
`ord('')` `TypeError` instead). -/
theorem decode_empty_payload_not_truncation :
    load 9 c5file = .error .typeError ∧ load 9 c5file ≠ .error .truncation := by
  have h : load 9 c5file = .error .typeError := rfl
  refine ⟨h, ?_⟩
  rw [h]
  simp

/-! ## C10: `iter_cas_file` reads through an unbound `self` -/

/-- `CAS_HEADER` of `libfb2/sb.py`. -/
def CAS_HEADER : List Nat := [0xfa, 0xce, 0x0f, 0xf0]

/-- The fields a `CASFile` record would carry. -/
structure CASFile where
  sha1 : List Nat
  offset : Nat
  size : Int

/-- `sb.iter_cas_file`: opens the file and wraps it in a `TypeReader`;
the loop body then starts with `header = self.read(4)`, but `self` is
not bound anywhere in this plain function (it is not a method), so the
first iteration raises `NameError` before anything is yielded. -/
def iter_cas_file (file : List Nat) : Except PyErr (List CASFile) :=
  let _reader : Reader := ⟨file, 0, file.length, none⟩
  .error .nameErrorSelf

/-- Claim C10.  On every input, `iter_cas_file` raises `NameError` on
the undefined `self` before yielding anything, so it never produces a
`CASFile`. -/
theorem iter_cas_file_raises_nameerror (file : List Nat) :
    iter_cas_file file = .error .nameErrorSelf
    ∧ ∀ l : List CASFile, iter_cas_file file ≠ .ok l := by
  refine ⟨rfl, fun l hc => ?_⟩
  rw [iter_cas_file] at hc
  exact Except.noConfusion hc

/-! ## C8: selector matching -/

theorem zip_all_match (stack : List StackFrame) (sel : Selector) :
    ((stack.zip sel).all fun p =>
        match p.2 with
        | none => true
        | some l => p.1 == some l) = true
    ↔ ∀ i (h1 : i < sel.length) (h2 : i < stack.length),
        sel.get ⟨i, h1⟩ = none ∨ sel.get ⟨i, h1⟩ = stack.get ⟨i, h2⟩ := by
  induction stack generalizing sel with
  | nil =>
    simp only [List.zip_nil_left, List.all_nil, true_iff]
    intro i h1 h2
    exact absurd h2 (by simp)
  | cons f fs ih =>
    cases sel with
    | nil =>
      simp only [List.zip_nil_right, List.all_nil, true_iff]
      intro i h1 h2
      exact absurd h1 (by simp)
    | cons s ss =>
      simp only [List.zip_cons_cons, List.all_cons, Bool.and_eq_true, ih]
      constructor
      · rintro ⟨hp, hrest⟩ i h1 h2
        cases i with
        | zero =>
          cases s with
          | none => exact Or.inl rfl
          | some l =>
            have hf : f = some l := by simpa using hp
            exact Or.inr (by simp [hf])
        | succ j => exact hrest j (by simpa using h1) (by simpa using h2)
      · intro hall
        constructor
        · cases hs : s with
          | none => rfl
          | some l =>
            have h0 : (some l : Option Label) = none ∨ (some l : Option Label) = f := by
              have := hall 0 (by simp) (by simp)
              simpa [hs] using this
            rcases h0 with h | h
            · exact absurd h (by simp)
            · rw [← h]
              simp
        · intro j hj1 hj2
          exact hall (j + 1) (by simpa using hj1) (by simpa using hj2)

/-- Claim C8.  `selector_matches` is length-exact and segment-wise: it
accepts exactly the stacks whose depth equals the selector's segment
count and whose every frame is matched by the corresponding segment — a
wildcard segment (`*`, parsed to `none`) matches any frame, and a
non-wildcard segment (a dict key string or a list index number) matches
only the equal frame.  In particular a selector of `k` segments never
matches a stack of depth other than `k`. -/
theorem selector_matches_spec (sel : Selector) (stack : List StackFrame) :
    (selector_matches sel stack = true ↔
      stack.length = sel.length ∧
        ∀ i (h1 : i < sel.length) (h2 : i < stack.length),
          sel.get ⟨i, h1⟩ = none ∨ sel.get ⟨i, h1⟩ = stack.get ⟨i, h2⟩)
    ∧ (stack.length ≠ sel.length → selector_matches sel stack = false) := by
  refine ⟨?_, fun h => by simp [selector_matches, h]⟩
  by_cases hlen : stack.length = sel.length
  · rw [selector_matches, if_neg (by omega), zip_all_match]
    simp [hlen]
  · rw [selector_matches, if_pos (by omega)]
    constructor
    · intro h
      exact absurd h (by simp)
    · rintro ⟨h, -⟩
      exact (hlen h).elim

end FB2

namespace FB2

/-! ## C2: the collection size hint is discarded

The decoder's behaviour after the size hint depends only on the bytes
that remain and the capacity that remains, not on how the reader got
there.  `ReaderEquiv` captures that relation between two plain readers
and the `*_equiv` lemmas push it through every reader operation and
through the event generator. -/

/-- Two keystream-free readers with the same remaining bytes and the
same remaining capacity. -/
def ReaderEquiv (r1 r2 : Reader) : Prop :=
  r1.data.drop r1.pos = r2.data.drop r2.pos
  ∧ r1.limit - r1.pos = r2.limit - r2.pos
  ∧ r1.magic = none ∧ r2.magic = none

/-- Results of one operation on two equivalent readers: the same error,
or the same value with equivalent reader states. -/
def StepEquiv {α : Type} (x y : Except PyErr (α × Reader)) : Prop :=
  (∃ e, x = .error e ∧ y = .error e)
  ∨ ∃ a r1 r2, x = .ok (a, r1) ∧ y = .ok (a, r2) ∧ ReaderEquiv r1 r2

theorem read_equiv (n? : Option Nat) {r1 r2 : Reader} (h : ReaderEquiv r1 r2) :
    StepEquiv (r1.read n?) (r2.read n?) := by
  obtain ⟨hrest, hcap, hm1, hm2⟩ := h
  cases n? with
  | none =>
    simp only [Reader.read, Reader.rawRead, hm1, hm2, hrest, hcap]
    by_cases hc : ((r2.data.drop r2.pos).take (r2.limit - r2.pos)).length
        ≠ r2.limit - r2.pos
    · simp only [if_pos hc]
      exact Or.inl ⟨_, rfl, rfl⟩
    · simp only [if_neg hc]
      refine Or.inr ⟨_, _, _, rfl, rfl, ?_, ?_, rfl, rfl⟩
      · show r1.data.drop (r1.pos + (r2.limit - r2.pos))
          = r2.data.drop (r2.pos + (r2.limit - r2.pos))
        rw [← List.drop_drop, ← List.drop_drop, hrest]
      · show r1.limit - (r1.pos + (r2.limit - r2.pos))
          = r2.limit - (r2.pos + (r2.limit - r2.pos))
        omega
  | some n =>
    simp only [Reader.read, Reader.rawRead, hm1, hm2, hrest, hcap]
    by_cases hc : ((r2.data.drop r2.pos).take (min n (r2.limit - r2.pos))).length
        ≠ min n (r2.limit - r2.pos)
    · simp only [if_pos hc]
      exact Or.inl ⟨_, rfl, rfl⟩
    · simp only [if_neg hc]
      refine Or.inr ⟨_, _, _, rfl, rfl, ?_, ?_, rfl, rfl⟩
      · show r1.data.drop (r1.pos + min n (r2.limit - r2.pos))
          = r2.data.drop (r2.pos + min n (r2.limit - r2.pos))
        rw [← List.drop_drop, ← List.drop_drop, hrest]
      · show r1.limit - (r1.pos + min n (r2.limit - r2.pos))
          = r2.limit - (r2.pos + min n (r2.limit - r2.pos))
        omega

theorem read_byte_equiv {r1 r2 : Reader} (h : ReaderEquiv r1 r2) :
    StepEquiv r1.read_byte r2.read_byte := by
  rcases read_equiv (some 1) h with ⟨e, h1, h2⟩ | ⟨a, s1, s2, h1, h2, hE⟩
  · rw [Reader.read_byte, Reader.read_byte, h1, h2]
    exact Or.inl ⟨e, rfl, rfl⟩
  · rw [Reader.read_byte, Reader.read_byte, h1, h2]
    match a with
    | [] => exact Or.inl ⟨.typeError, rfl, rfl⟩
    | [b] => exact Or.inr ⟨b, s1, s2, rfl, rfl, hE⟩
    | _ :: _ :: _ => exact Or.inl ⟨.typeError, rfl, rfl⟩

theorem readVarintAux_equiv (fuel : Nat) :
    ∀ (idx acc : Nat) {r1 r2 : Reader}, ReaderEquiv r1 r2 →
      StepEquiv (readVarintAux fuel r1 idx acc) (readVarintAux fuel r2 idx acc) := by
  induction fuel with
  | zero => intro idx acc r1 r2 _; exact Or.inl ⟨.outOfFuel, rfl, rfl⟩
  | succ fuel ih =>
    intro idx acc r1 r2 h
    rcases read_byte_equiv h with ⟨e, h1, h2⟩ | ⟨b, s1, s2, h1, h2, hE⟩
    · simp only [readVarintAux, h1, h2]
      exact Or.inl ⟨e, rfl, rfl⟩
    · simp only [readVarintAux, h1, h2]
      by_cases hs : b >>> 7 = 0
      · simp only [if_pos hs]
        exact Or.inr ⟨_, s1, s2, rfl, rfl, hE⟩
      · simp only [if_neg hs]
        exact ih (idx + 1) _ hE

theorem read_varint_equiv {r1 r2 : Reader} (h : ReaderEquiv r1 r2) :
    StepEquiv r1.read_varint r2.read_varint := by
  have hcap : r1.limit - r1.pos = r2.limit - r2.pos := h.2.1
  rw [Reader.read_varint, Reader.read_varint, hcap]
  exact readVarintAux_equiv _ 0 0 h

theorem readCStringAux_equiv (fuel : Nat) :
    ∀ (acc : List Nat) {r1 r2 : Reader}, ReaderEquiv r1 r2 →
      StepEquiv (readCStringAux fuel r1 acc) (readCStringAux fuel r2 acc) := by
  induction fuel with
  | zero => intro acc r1 r2 _; exact Or.inl ⟨.outOfFuel, rfl, rfl⟩
  | succ fuel ih =>
    intro acc r1 r2 h
    rcases read_equiv (some 1) h with ⟨e, h1, h2⟩ | ⟨a, s1, s2, h1, h2, hE⟩
    · simp only [readCStringAux, h1, h2]
      exact Or.inl ⟨e, rfl, rfl⟩
    · simp only [readCStringAux, h1, h2]
      match a with
      | [] => exact Or.inl ⟨.divergence, rfl, rfl⟩
      | [c] =>
        by_cases hc : c = 0
        · simp only [if_pos hc]
          exact Or.inr ⟨_, s1, s2, rfl, rfl, hE⟩
        · simp only [if_neg hc]
          exact ih _ hE
      | _ :: _ :: _ => exact Or.inl ⟨.divergence, rfl, rfl⟩

theorem read_cstring_equiv {r1 r2 : Reader} (h : ReaderEquiv r1 r2) :
    StepEquiv r1.read_cstring r2.read_cstring := by
  have hcap : r1.limit - r1.pos = r2.limit - r2.pos := h.2.1
  rw [Reader.read_cstring, Reader.read_cstring, hcap]
  exact readCStringAux_equiv _ [] h

theorem read_bstring_equiv {r1 r2 : Reader} (h : ReaderEquiv r1 r2) :
    StepEquiv r1.read_bstring r2.read_bstring := by
  rcases read_varint_equiv h with ⟨e, h1, h2⟩ | ⟨n, s1, s2, h1, h2, hE⟩
  · simp only [Reader.read_bstring, h1, h2]
    exact Or.inl ⟨e, rfl, rfl⟩
  · simp only [Reader.read_bstring, h1, h2]
    rcases read_equiv (some n) hE with ⟨e, g1, g2⟩ | ⟨a, t1, t2, g1, g2, hE'⟩
    · simp only [g1, g2]
      exact Or.inl ⟨e, rfl, rfl⟩
    · simp only [g1, g2]
      by_cases hc : a = [] ∨ a.getLast? ≠ some 0
      · simp only [if_pos hc]
        exact Or.inl ⟨_, rfl, rfl⟩
      · simp only [if_neg hc]
        exact Or.inr ⟨_, t1, t2, rfl, rfl, hE'⟩

theorem read_i32_equiv {r1 r2 : Reader} (h : ReaderEquiv r1 r2) :
    StepEquiv r1.read_i32 r2.read_i32 := by
  rcases read_equiv (some 4) h with ⟨e, h1, h2⟩ | ⟨a, s1, s2, h1, h2, hE⟩
  · simp only [Reader.read_i32, h1, h2]
    exact Or.inl ⟨e, rfl, rfl⟩
  · simp only [Reader.read_i32, h1, h2]
    by_cases hc : a.length ≠ 4
    · simp only [if_pos hc]
      exact Or.inl ⟨_, rfl, rfl⟩
    · simp only [if_neg hc]
      exact Or.inr ⟨_, s1, s2, rfl, rfl, hE⟩

theorem read_i64_equiv {r1 r2 : Reader} (h : ReaderEquiv r1 r2) :
    StepEquiv r1.read_i64 r2.read_i64 := by
  rcases read_equiv (some 8) h with ⟨e, h1, h2⟩ | ⟨a, s1, s2, h1, h2, hE⟩
  · simp only [Reader.read_i64, h1, h2]
    exact Or.inl ⟨e, rfl, rfl⟩
  · simp only [Reader.read_i64, h1, h2]
    by_cases hc : a.length ≠ 8
    · simp only [if_pos hc]
      exact Or.inl ⟨_, rfl, rfl⟩
    · simp only [if_neg hc]
      exact Or.inr ⟨_, s1, s2, rfl, rfl, hE⟩

end FB2

namespace FB2

theorem stepEquiv_error {α : Type} (e : PyErr) :
    StepEquiv (α := α) (.error e) (.error e) :=
  Or.inl ⟨e, rfl, rfl⟩

theorem stepEquiv_ok {α : Type} (a : α) {r1 r2 : Reader} (h : ReaderEquiv r1 r2) :
    StepEquiv (.ok (a, r1)) (.ok (a, r2)) :=
  Or.inr ⟨a, r1, r2, rfl, rfl, h⟩

/-- The event generator started on two equivalent readers produces the
same error or the same events with equivalent readers: its behaviour
depends only on the remaining bytes and capacity. -/
theorem readEv_equiv (fuel : Nat) :
    ∀ (mode : ReadMode) {r1 r2 : Reader}, ReaderEquiv r1 r2 →
      StepEquiv (readEv fuel mode r1) (readEv fuel mode r2) := by
  induction fuel with
  | zero => intro mode r1 r2 _; exact stepEquiv_error _
  | succ fuel ih =>
    intro mode r1 r2 h
    cases mode with
    | obj tc? =>
      have hstep : StepEquiv
          (match tc? with | none => r1.read_byte | some t => .ok (t, r1))
          (match tc? with | none => r2.read_byte | some t => .ok (t, r2)) := by
        cases tc? with
        | none => exact read_byte_equiv h
        | some t => exact stepEquiv_ok t h
      rcases hstep with ⟨e, h1, h2⟩ | ⟨raw, s1, s2, h1, h2, hE⟩
      · simp only [readEv, h1, h2]
        exact stepEquiv_error e
      · simp only [readEv, h1, h2]
        by_cases hc0 : raw &&& 0x1f = 0
        · simp only [if_pos hc0]
          exact stepEquiv_ok _ hE
        simp only [if_neg hc0]
        by_cases hc1 : raw &&& 0x1f = 1
        · simp only [if_pos hc1]
          rcases read_varint_equiv hE with ⟨e, g1, g2⟩ | ⟨n, t1, t2, g1, g2, hE'⟩
          · simp only [g1, g2]; exact stepEquiv_error e
          simp only [g1, g2]
          rcases ih (.listBody 0) hE' with ⟨e, k1, k2⟩ | ⟨E, u1, u2, k1, k2, hE2⟩
          · simp only [k1, k2]; exact stepEquiv_error e
          simp only [k1, k2]
          exact stepEquiv_ok _ hE2
        simp only [if_neg hc1]
        by_cases hc2 : raw &&& 0x1f = 2
        · simp only [if_pos hc2]
          rcases read_varint_equiv hE with ⟨e, g1, g2⟩ | ⟨n, t1, t2, g1, g2, hE'⟩
          · simp only [g1, g2]; exact stepEquiv_error e
          simp only [g1, g2]
          rcases ih .dictBody hE' with ⟨e, k1, k2⟩ | ⟨E, u1, u2, k1, k2, hE2⟩
          · simp only [k1, k2]; exact stepEquiv_error e
          simp only [k1, k2]
          exact stepEquiv_ok _ hE2
        simp only [if_neg hc2]
        by_cases hc5 : raw &&& 0x1f = 5
        · simp only [if_pos hc5]
          rcases read_equiv (some 8) hE with ⟨e, g1, g2⟩ | ⟨b, t1, t2, g1, g2, hE'⟩
          · simp only [g1, g2]; exact stepEquiv_error e
          simp only [g1, g2]
          exact stepEquiv_ok _ hE'
        simp only [if_neg hc5]
        by_cases hc6 : raw &&& 0x1f = 6
        · simp only [if_pos hc6]
          rcases read_byte_equiv hE with ⟨e, g1, g2⟩ | ⟨b, t1, t2, g1, g2, hE'⟩
          · simp only [g1, g2]; exact stepEquiv_error e
          simp only [g1, g2]
          exact stepEquiv_ok _ hE'
        simp only [if_neg hc6]
        by_cases hc7 : raw &&& 0x1f = 7
        · simp only [if_pos hc7]
          rcases read_bstring_equiv hE with ⟨e, g1, g2⟩ | ⟨s, t1, t2, g1, g2, hE'⟩
          · simp only [g1, g2]; exact stepEquiv_error e
          simp only [g1, g2]
          exact stepEquiv_ok _ hE'
        simp only [if_neg hc7]
        by_cases hc8 : raw &&& 0x1f = 8
        · simp only [if_pos hc8]
          rcases read_i32_equiv hE with ⟨e, g1, g2⟩ | ⟨n, t1, t2, g1, g2, hE'⟩
          · simp only [g1, g2]; exact stepEquiv_error e
          simp only [g1, g2]
          exact stepEquiv_ok _ hE'
        simp only [if_neg hc8]
        by_cases hc9 : raw &&& 0x1f = 9
        · simp only [if_pos hc9]
          rcases read_i64_equiv hE with ⟨e, g1, g2⟩ | ⟨n, t1, t2, g1, g2, hE'⟩
          · simp only [g1, g2]; exact stepEquiv_error e
          simp only [g1, g2]
          exact stepEquiv_ok _ hE'
        simp only [if_neg hc9]
        by_cases hc15 : raw &&& 0x1f = 15
        · simp only [if_pos hc15]
          rcases read_equiv (some 16) hE with ⟨e, g1, g2⟩ | ⟨b, t1, t2, g1, g2, hE'⟩
          · simp only [g1, g2]; exact stepEquiv_error e
          simp only [g1, g2]
          by_cases hb : b.length ≠ 16
          · simp only [if_pos hb]; exact stepEquiv_error _
          · simp only [if_neg hb]; exact stepEquiv_ok _ hE'
        simp only [if_neg hc15]
        by_cases hc16 : raw &&& 0x1f = 16
        · simp only [if_pos hc16]
          rcases read_equiv (some 20) hE with ⟨e, g1, g2⟩ | ⟨b, t1, t2, g1, g2, hE'⟩
          · simp only [g1, g2]; exact stepEquiv_error e
          simp only [g1, g2]
          exact stepEquiv_ok _ hE'
        simp only [if_neg hc16]
        by_cases hc19 : raw &&& 0x1f = 19
        · simp only [if_pos hc19]
          rcases read_varint_equiv hE with ⟨e, g1, g2⟩ | ⟨n, t1, t2, g1, g2, hE'⟩
          · simp only [g1, g2]; exact stepEquiv_error e
          simp only [g1, g2]
          rcases ih (.blobChunks n) hE' with ⟨e, k1, k2⟩ | ⟨E, u1, u2, k1, k2, hE2⟩
          · simp only [k1, k2]; exact stepEquiv_error e
          simp only [k1, k2]
          exact stepEquiv_ok _ hE2
        simp only [if_neg hc19]
        exact stepEquiv_error _
    | listBody idx =>
      rcases read_byte_equiv h with ⟨e, h1, h2⟩ | ⟨tc, s1, s2, h1, h2, hE⟩
      · simp only [readEv, h1, h2]
        exact stepEquiv_error e
      · simp only [readEv, h1, h2]
        by_cases htc : tc = 0
        · simp only [if_pos htc]
          exact stepEquiv_ok _ hE
        simp only [if_neg htc]
        rcases ih (.obj (some tc)) hE with ⟨e, g1, g2⟩ | ⟨E, t1, t2, g1, g2, hE'⟩
        · simp only [g1, g2]; exact stepEquiv_error e
        simp only [g1, g2]
        rcases ih (.listBody (idx + 1)) hE' with ⟨e, k1, k2⟩ | ⟨E', u1, u2, k1, k2, hE2⟩
        · simp only [k1, k2]; exact stepEquiv_error e
        simp only [k1, k2]
        exact stepEquiv_ok _ hE2
    | dictBody =>
      rcases read_byte_equiv h with ⟨e, h1, h2⟩ | ⟨tc, s1, s2, h1, h2, hE⟩
      · simp only [readEv, h1, h2]
        exact stepEquiv_error e
      · simp only [readEv, h1, h2]
        by_cases htc : tc = 0
        · simp only [if_pos htc]
          exact stepEquiv_ok _ hE
        simp only [if_neg htc]
        rcases read_cstring_equiv hE with ⟨e, g1, g2⟩ | ⟨k, t1, t2, g1, g2, hE'⟩
        · simp only [g1, g2]; exact stepEquiv_error e
        simp only [g1, g2]
        rcases ih (.obj (some tc)) hE' with ⟨e, k1, k2⟩ | ⟨E, u1, u2, k1, k2, hE2⟩
        · simp only [k1, k2]; exact stepEquiv_error e
        simp only [k1, k2]
        rcases ih .dictBody hE2 with ⟨e, m1, m2⟩ | ⟨E', v1, v2, m1, m2, hE3⟩
        · simp only [m1, m2]; exact stepEquiv_error e
        simp only [m1, m2]
        exact stepEquiv_ok _ hE3
    | blobChunks toRead =>
      by_cases ht : toRead = 0
      · simp only [readEv, if_pos ht]
        exact stepEquiv_ok _ h
      simp only [readEv, if_neg ht]
      rcases read_equiv (some (min toRead 4096)) h with ⟨e, g1, g2⟩ | ⟨b, t1, t2, g1, g2, hE'⟩
      · simp only [g1, g2]; exact stepEquiv_error e
      simp only [g1, g2]
      rcases ih (.blobChunks (toRead - min toRead 4096)) hE' with
        ⟨e, k1, k2⟩ | ⟨E, u1, u2, k1, k2, hE2⟩
      · simp only [k1, k2]; exact stepEquiv_error e
      simp only [k1, k2]
      exact stepEquiv_ok _ hE2

end FB2

namespace FB2

/-- The eager decode entry point on a byte string (`load`/`loads`
keeping only the value). -/
def decode (fuel : Nat) (file : List Nat) : Except PyErr Value :=
  match load fuel file with
  | .error e => .error e
  | .ok (v, _) => .ok v

theorem mkDTR_cons_ne_zero (b : Nat) (t : List Nat) (hb : b ≠ 0) :
    mkDecryptingTypeReader (b :: t) = .ok ⟨b :: t, 0, t.length + 1, none⟩ := by
  rw [mkDecryptingTypeReader, if_neg]
  · rfl
  · intro hc
    simp only [DICE_HEADER, List.take_succ_cons, List.cons.injEq] at hc
    exact hb hc.1

/-- Claim C2.  For every list or dict encoding, the size hint following
the typecode is read and discarded: the decoded result is the same
whatever varint encoding (of whatever value) sits in the hint position,
because decoding continues purely from the bytes after the hint until
the 0 typecode sentinel.  `b` is any typecode byte whose masked code
selects a list (1) or a dict (2); `enc1`/`enc2` are arbitrary valid
varint encodings placed in the hint position. -/
theorem collection_hint_discarded (fuel : Nat) (b : Nat) (enc1 enc2 body : List Nat)
    (hb : b &&& 0x1f = 1 ∨ b &&& 0x1f = 2)
    (h1 : wfVarint enc1 = true) (h2 : wfVarint enc2 = true) :
    decode fuel (b :: (enc1 ++ body)) = decode fuel (b :: (enc2 ++ body)) := by
  have hb0 : b ≠ 0 := by
    rcases hb with h | h <;> (intro h0; subst h0; simp at h)
  cases fuel with
  | zero =>
    simp [decode, load, mkDTR_cons_ne_zero b _ hb0, SBParser.parse, readEv]
  | succ fuel =>
    have hm1 := mkDTR_cons_ne_zero b (enc1 ++ body) hb0
    have hm2 := mkDTR_cons_ne_zero b (enc2 ++ body) hb0
    simp only [decode, load, hm1, hm2, SBParser.parse]
    have hrb1 : Reader.read_byte ⟨b :: (enc1 ++ body), 0, (enc1 ++ body).length + 1, none⟩
        = .ok (b, ⟨b :: (enc1 ++ body), 1, (enc1 ++ body).length + 1, none⟩) :=
      read_byte_cons _ b (enc1 ++ body) rfl rfl rfl
    have hrb2 : Reader.read_byte ⟨b :: (enc2 ++ body), 0, (enc2 ++ body).length + 1, none⟩
        = .ok (b, ⟨b :: (enc2 ++ body), 1, (enc2 ++ body).length + 1, none⟩) :=
      read_byte_cons _ b (enc2 ++ body) rfl rfl rfl
    have hv1 := read_varint_accepts_any_encoding enc1 body
      ⟨b :: (enc1 ++ body), 1, (enc1 ++ body).length + 1, none⟩ rfl rfl rfl h1
    have hv2 := read_varint_accepts_any_encoding enc2 body
      ⟨b :: (enc2 ++ body), 1, (enc2 ++ body).length + 1, none⟩ rfl rfl rfl h2
    have hEquiv : ReaderEquiv
        ⟨b :: (enc1 ++ body), 1 + enc1.length, (enc1 ++ body).length + 1, none⟩
        ⟨b :: (enc2 ++ body), 1 + enc2.length, (enc2 ++ body).length + 1, none⟩ := by
      refine ⟨?_, ?_, rfl, rfl⟩
      · show (b :: (enc1 ++ body)).drop (1 + enc1.length)
          = (b :: (enc2 ++ body)).drop (1 + enc2.length)
        rw [Nat.add_comm 1 enc1.length, Nat.add_comm 1 enc2.length,
          List.drop_succ_cons, List.drop_succ_cons, List.drop_left, List.drop_left]
      · simp only [List.length_append]
        omega
    rcases hb with hcode | hcode
    · simp only [readEv, hrb1, hrb2, hcode, reduceIte]
      simp only [hv1, hv2]
      rcases readEv_equiv fuel (.listBody 0) hEquiv with ⟨e, k1, k2⟩ | ⟨E, u1, u2, k1, k2, hE2⟩
      · try simp only [List.length_append]
        try simp only [List.length_append] at k1
        try simp only [List.length_append] at k2
        rw [k1, k2]
        simp
      · try simp only [List.length_append]
        try simp only [List.length_append] at k1
        try simp only [List.length_append] at k2
        rw [k1, k2]
        cases hmo : makeObjectP (.list_start :: E) with
        | error e => simp [hmo]
        | ok p =>
          by_cases hrest : p.2.isEmpty
          · simp [hmo, hrest]
          · simp [hmo, hrest]
    · simp only [readEv, hrb1, hrb2, hcode, reduceIte]
      simp only [hv1, hv2]
      rcases readEv_equiv fuel .dictBody hEquiv with ⟨e, k1, k2⟩ | ⟨E, u1, u2, k1, k2, hE2⟩
      · try simp only [List.length_append]
        try simp only [List.length_append] at k1
        try simp only [List.length_append] at k2
        rw [k1, k2]
        simp
      · try simp only [List.length_append]
        try simp only [List.length_append] at k1
        try simp only [List.length_append] at k2
        rw [k1, k2]
        cases hmo : makeObjectP (.dict_start :: E) with
        | error e => simp [hmo]
        | ok p =>
          by_cases hrest : p.2.isEmpty
          · simp [hmo, hrest]
          · simp [hmo, hrest]

end FB2

namespace FB2

/-- Three i32 elements (1, 2, 3) and the 0 terminator: the body of the
spec's list example. -/
def c2body : List Nat :=
  [0x08, 1, 0, 0, 0, 0x08, 2, 0, 0, 0, 0x08, 3, 0, 0, 0, 0x00]

/-- The events of the list example. -/
def c2events : List Event :=
  [.list_start, .list_item 0, .value (.i32 1), .list_item 1, .value (.i32 2),
   .list_item 2, .value (.i32 3), .list_end]

theorem collection_hint_discarded_witness :
    decode 99 (0x01 :: ([0x05] ++ c2body)) = decode 99 (0x01 :: ([0x03] ++ c2body))
    ∧ decode 99 (0x01 :: ([0x05] ++ c2body)) = .ok (.list [.i32 1, .i32 2, .i32 3]) := by
  refine ⟨collection_hint_discarded 99 0x01 [0x05] [0x03] c2body
    (Or.inl rfl) (by decide) (by decide), ?_⟩
  have h0 : mkDecryptingTypeReader (0x01 :: ([0x05] ++ c2body))
      = .ok ⟨0x01 :: ([0x05] ++ c2body), 0, 18, none⟩ := rfl
  have h1 : readEv 99 (.obj none) ⟨0x01 :: ([0x05] ++ c2body), 0, 18, none⟩
      = .ok (c2events, ⟨0x01 :: ([0x05] ++ c2body), 18, 18, none⟩) := rfl
  simp only [decode, load, h0, SBParser.parse, h1]
  simp [makeObjectP, makeObject, makeListItems, c2events]

end FB2

namespace FB2

/-! ## C7: streaming with `*` over a top-level list

The lemmas below relate `make_object` and `iterparse` on the event
streams `read_object` produces.  The `…P` wrappers erase the consumption
bound from the subtype results so the statements stay first-order. -/

/-- `makeListItems` with the consumption bound erased. -/
def makeListItemsP (evs : List Event) : Except PyErr (List Value × List Event) :=
  match makeListItems evs with
  | .error e => .error e
  | .ok (vs, rest) => .ok (vs, rest.val)

/-- `makeDictItems` with the consumption bound erased. -/
def makeDictItemsP (evs : List Event) :
    Except PyErr (List (List Nat × Value) × List Event) :=
  match makeDictItems evs with
  | .error e => .error e
  | .ok (kvs, rest) => .ok (kvs, rest.val)

/-- `makeBlobChunks` with the consumption bound erased. -/
def makeBlobChunksP (evs : List Event) :
    Except PyErr (List (List Nat) × List Event) :=
  match makeBlobChunks evs with
  | .error e => .error e
  | .ok (cs, rest) => .ok (cs, rest.val)

theorem makeObjectP_value (v : Value) (rest : List Event) :
    makeObjectP (.value v :: rest) = .ok (v, rest) := by
  simp [makeObjectP, makeObject]

theorem makeObjectP_list_start (rest : List Event) :
    makeObjectP (.list_start :: rest)
      = match makeListItemsP rest with
        | .error e => .error e
        | .ok (vs, rest') => .ok (.list vs, rest') := by
  simp only [makeObjectP, makeObject, makeListItemsP]
  cases h : makeListItems rest with
  | error e => rfl
  | ok p =>
    obtain ⟨vs, rest', hb⟩ := p
    rfl

theorem makeObjectP_dict_start (rest : List Event) :
    makeObjectP (.dict_start :: rest)
      = match makeDictItemsP rest with
        | .error e => .error e
        | .ok (kvs, rest') =>
            .ok (.dict (kvs.foldl (fun m kv => dictSet m kv.1 kv.2) []), rest') := by
  simp only [makeObjectP, makeObject, makeDictItemsP]
  cases h : makeDictItems rest with
  | error e => rfl
  | ok p =>
    obtain ⟨kvs, rest', hb⟩ := p
    rfl

theorem makeObjectP_blob_start (n : Nat) (rest : List Event) :
    makeObjectP (.blob_start n :: rest)
      = match makeBlobChunksP rest with
        | .error e => .error e
        | .ok (cs, rest') => .ok (.blob cs.flatten, rest') := by
  simp only [makeObjectP, makeObject, makeBlobChunksP]
  cases h : makeBlobChunks rest with
  | error e => rfl
  | ok p =>
    obtain ⟨cs, rest', hb⟩ := p
    rfl

theorem makeListItemsP_end (rest : List Event) :
    makeListItemsP (.list_end :: rest) = .ok ([], rest) := by
  simp [makeListItemsP, makeListItems]

theorem makeListItemsP_item (i : Nat) (rest : List Event) :
    makeListItemsP (.list_item i :: rest)
      = match makeObjectP rest with
        | .error e => .error e
        | .ok (v, rest1) =>
          match makeListItemsP rest1 with
          | .error e => .error e
          | .ok (vs, rest2) => .ok (v :: vs, rest2) := by
  simp only [makeListItemsP, makeListItems, makeObjectP]
  cases h : makeObject rest with
  | error e => rfl
  | ok p =>
    obtain ⟨v, rest1, hb⟩ := p
    cases h2 : makeListItems rest1 with
    | error e => simp [h2]
    | ok q =>
      obtain ⟨vs, rest2, hb2⟩ := q
      simp [h2]

theorem makeDictItemsP_end (rest : List Event) :
    makeDictItemsP (.dict_end :: rest) = .ok ([], rest) := by
  simp [makeDictItemsP, makeDictItems]

theorem makeDictItemsP_key (k : List Nat) (rest : List Event) :
    makeDictItemsP (.dict_key k :: rest)
      = match makeObjectP rest with
        | .error e => .error e
        | .ok (v, rest1) =>
          match makeDictItemsP rest1 with
          | .error e => .error e
          | .ok (kvs, rest2) => .ok ((k, v) :: kvs, rest2) := by
  simp only [makeDictItemsP, makeDictItems, makeObjectP]
  cases h : makeObject rest with
  | error e => rfl
  | ok p =>
    obtain ⟨v, rest1, hb⟩ := p
    cases h2 : makeDictItems rest1 with
    | error e => simp [h2]
    | ok q =>
      obtain ⟨kvs, rest2, hb2⟩ := q
      simp [h2]

theorem makeBlobChunksP_end (rest : List Event) :
    makeBlobChunksP (.blob_end :: rest) = .ok ([], rest) := by
  simp [makeBlobChunksP, makeBlobChunks]

theorem makeBlobChunksP_chunk (b : List Nat) (rest : List Event) :
    makeBlobChunksP (.blob_chunk b :: rest)
      = match makeBlobChunksP rest with
        | .error e => .error e
        | .ok (cs, rest') => .ok (b :: cs, rest') := by
  simp only [makeBlobChunksP, makeBlobChunks]
  cases h : makeBlobChunks rest with
  | error e => rfl
  | ok p =>
    obtain ⟨cs, rest', hb⟩ := p
    rfl

/-- The events that can begin one object's event stream. -/
def isObjStart : Event → Bool
  | .value _ => true
  | .list_start => true
  | .dict_start => true
  | .blob_start _ => true
  | _ => false

end FB2

namespace FB2

/-- `make_object` consumes exactly the events the generator produced
for one object (and its collection loops consume exactly their bodies),
leaving any subsequent events untouched and producing the corresponding
value; moreover one object's event stream is nonempty and begins with a
`value`, `list_start`, `dict_start` or `blob_start` event. -/
theorem readEv_consumed (fuel : Nat) :
    ∀ (mode : ReadMode) (r : Reader) (E : List Event) (r' : Reader),
      readEv fuel mode r = .ok (E, r') →
      (match mode with
       | .obj _ => ∃ v e0 E', E = e0 :: E' ∧ isObjStart e0 = true
           ∧ ∀ tail, makeObjectP (E ++ tail) = .ok (v, tail)
       | .listBody _ => ∃ vs, ∀ tail, makeListItemsP (E ++ tail) = .ok (vs, tail)
       | .dictBody => ∃ kvs, ∀ tail, makeDictItemsP (E ++ tail) = .ok (kvs, tail)
       | .blobChunks _ => ∃ cs, ∀ tail, makeBlobChunksP (E ++ tail) = .ok (cs, tail)) := by
  induction fuel with
  | zero => intro mode r E r' hE; exact absurd hE (by simp [readEv])
  | succ fuel ih =>
    intro mode r E r' hE
    cases mode with
    | obj tc? =>
      simp only [readEv] at hE
      cases hstep : (match tc? with | none => r.read_byte | some t => Except.ok (t, r)) with
      | error e => simp only [hstep] at hE; exact absurd hE (by simp)
      | ok p =>
        obtain ⟨b, r1⟩ := p
        simp only [hstep] at hE
        by_cases hc0 : b &&& 0x1f = 0
        · simp only [if_pos hc0, Except.ok.injEq, Prod.mk.injEq] at hE
          refine ⟨.null, .value .null, [], hE.1.symm, rfl, fun tail => ?_⟩
          rw [← hE.1]
          exact makeObjectP_value _ _
        simp only [if_neg hc0] at hE
        by_cases hc1 : b &&& 0x1f = 1
        · simp only [if_pos hc1] at hE
          cases hv : r1.read_varint with
          | error e => simp only [hv] at hE; exact absurd hE (by simp)
          | ok q =>
            obtain ⟨n, r2⟩ := q
            simp only [hv] at hE
            cases hlb : readEv fuel (.listBody 0) r2 with
            | error e => simp only [hlb] at hE; exact absurd hE (by simp)
            | ok q2 =>
              obtain ⟨body, r3⟩ := q2
              simp only [hlb] at hE
              simp only [Except.ok.injEq, Prod.mk.injEq] at hE
              obtain ⟨vs, hcons⟩ := ih (.listBody 0) r2 body r3 hlb
              refine ⟨.list vs, .list_start, body, hE.1.symm, rfl, fun tail => ?_⟩
              rw [← hE.1, List.cons_append, makeObjectP_list_start, hcons tail]
        simp only [if_neg hc1] at hE
        by_cases hc2 : b &&& 0x1f = 2
        · simp only [if_pos hc2] at hE
          cases hv : r1.read_varint with
          | error e => simp only [hv] at hE; exact absurd hE (by simp)
          | ok q =>
            obtain ⟨n, r2⟩ := q
            simp only [hv] at hE
            cases hdb : readEv fuel .dictBody r2 with
            | error e => simp only [hdb] at hE; exact absurd hE (by simp)
            | ok q2 =>
              obtain ⟨body, r3⟩ := q2
              simp only [hdb] at hE
              simp only [Except.ok.injEq, Prod.mk.injEq] at hE
              obtain ⟨kvs, hcons⟩ := ih .dictBody r2 body r3 hdb
              refine ⟨.dict (kvs.foldl (fun m kv => dictSet m kv.1 kv.2) []),
                .dict_start, body, hE.1.symm, rfl, fun tail => ?_⟩
              rw [← hE.1, List.cons_append, makeObjectP_dict_start, hcons tail]
        simp only [if_neg hc2] at hE
        by_cases hc5 : b &&& 0x1f = 5
        · simp only [if_pos hc5] at hE
          cases hrd : r1.read (some 8) with
          | error e => simp only [hrd] at hE; exact absurd hE (by simp)
          | ok q =>
            obtain ⟨bs, r2⟩ := q
            simp only [hrd] at hE
            simp only [Except.ok.injEq, Prod.mk.injEq] at hE
            refine ⟨.unknown 5 bs, .value (.unknown 5 bs), [], hE.1.symm, rfl, fun tail => ?_⟩
            rw [← hE.1]
            exact makeObjectP_value _ _
        simp only [if_neg hc5] at hE
        by_cases hc6 : b &&& 0x1f = 6
        · simp only [if_pos hc6] at hE
          cases hrd : r1.read_byte with
          | error e => simp only [hrd] at hE; exact absurd hE (by simp)
          | ok q =>
            obtain ⟨b2, r2⟩ := q
            simp only [hrd] at hE
            simp only [Except.ok.injEq, Prod.mk.injEq] at hE
            refine ⟨.bool (b2 != 0), .value (.bool (b2 != 0)), [], hE.1.symm, rfl, fun tail => ?_⟩
            rw [← hE.1]
            exact makeObjectP_value _ _
        simp only [if_neg hc6] at hE
        by_cases hc7 : b &&& 0x1f = 7
        · simp only [if_pos hc7] at hE
          cases hrd : r1.read_bstring with
          | error e => simp only [hrd] at hE; exact absurd hE (by simp)
          | ok q =>
            obtain ⟨s, r2⟩ := q
            simp only [hrd] at hE
            simp only [Except.ok.injEq, Prod.mk.injEq] at hE
            refine ⟨.str s, .value (.str s), [], hE.1.symm, rfl, fun tail => ?_⟩
            rw [← hE.1]
            exact makeObjectP_value _ _
        simp only [if_neg hc7] at hE
        by_cases hc8 : b &&& 0x1f = 8
        · simp only [if_pos hc8] at hE
          cases hrd : r1.read_i32 with
          | error e => simp only [hrd] at hE; exact absurd hE (by simp)
          | ok q =>
            obtain ⟨n, r2⟩ := q
            simp only [hrd] at hE
            simp only [Except.ok.injEq, Prod.mk.injEq] at hE
            refine ⟨.i32 n, .value (.i32 n), [], hE.1.symm, rfl, fun tail => ?_⟩
            rw [← hE.1]
            exact makeObjectP_value _ _
        simp only [if_neg hc8] at hE
        by_cases hc9 : b &&& 0x1f = 9
        · simp only [if_pos hc9] at hE
          cases hrd : r1.read_i64 with
          | error e => simp only [hrd] at hE; exact absurd hE (by simp)
          | ok q =>
            obtain ⟨n, r2⟩ := q
            simp only [hrd] at hE
            simp only [Except.ok.injEq, Prod.mk.injEq] at hE
            refine ⟨.i64 n, .value (.i64 n), [], hE.1.symm, rfl, fun tail => ?_⟩
            rw [← hE.1]
            exact makeObjectP_value _ _
        simp only [if_neg hc9] at hE
        by_cases hc15 : b &&& 0x1f = 15
        · simp only [if_pos hc15] at hE
          cases hrd : r1.read (some 16) with
          | error e => simp only [hrd] at hE; exact absurd hE (by simp)
          | ok q =>
            obtain ⟨bs, r2⟩ := q
            simp only [hrd] at hE
            by_cases hlen : bs.length ≠ 16
            · simp only [if_pos hlen] at hE
              exact absurd hE (by simp)
            · simp only [if_neg hlen, Except.ok.injEq, Prod.mk.injEq] at hE
              refine ⟨.uuid bs, .value (.uuid bs), [], hE.1.symm, rfl, fun tail => ?_⟩
              rw [← hE.1]
              exact makeObjectP_value _ _
        simp only [if_neg hc15] at hE
        by_cases hc16 : b &&& 0x1f = 16
        · simp only [if_pos hc16] at hE
          cases hrd : r1.read (some 20) with
          | error e => simp only [hrd] at hE; exact absurd hE (by simp)
          | ok q =>
            obtain ⟨bs, r2⟩ := q
            simp only [hrd] at hE
            simp only [Except.ok.injEq, Prod.mk.injEq] at hE
            refine ⟨.sha1 bs, .value (.sha1 bs), [], hE.1.symm, rfl, fun tail => ?_⟩
            rw [← hE.1]
            exact makeObjectP_value _ _
        simp only [if_neg hc16] at hE
        by_cases hc19 : b &&& 0x1f = 19
        · simp only [if_pos hc19] at hE
          cases hv : r1.read_varint with
          | error e => simp only [hv] at hE; exact absurd hE (by simp)
          | ok q =>
            obtain ⟨n, r2⟩ := q
            simp only [hv] at hE
            cases hbc : readEv fuel (.blobChunks n) r2 with
            | error e => simp only [hbc] at hE; exact absurd hE (by simp)
            | ok q2 =>
              obtain ⟨chunks, r3⟩ := q2
              simp only [hbc] at hE
              simp only [Except.ok.injEq, Prod.mk.injEq] at hE
              obtain ⟨cs, hcons⟩ := ih (.blobChunks n) r2 chunks r3 hbc
              refine ⟨.blob cs.flatten, .blob_start n, chunks, hE.1.symm, rfl, fun tail => ?_⟩
              rw [← hE.1, List.cons_append, makeObjectP_blob_start, hcons tail]
        simp only [if_neg hc19] at hE
        exact absurd hE (by simp)
    | listBody idx =>
      simp only [readEv] at hE
      cases hb : r.read_byte with
      | error e => simp only [hb] at hE; exact absurd hE (by simp)
      | ok p =>
        obtain ⟨tc, r1⟩ := p
        simp only [hb] at hE
        by_cases htc : tc = 0
        · simp only [if_pos htc, Except.ok.injEq, Prod.mk.injEq] at hE
          refine ⟨[], fun tail => ?_⟩
          rw [← hE.1]
          exact makeListItemsP_end tail
        simp only [if_neg htc] at hE
        cases hobj : readEv fuel (.obj (some tc)) r1 with
        | error e => simp only [hobj] at hE; exact absurd hE (by simp)
        | ok q =>
          obtain ⟨evs, r2⟩ := q
          simp only [hobj] at hE
          cases hrest : readEv fuel (.listBody (idx + 1)) r2 with
          | error e => simp only [hrest] at hE; exact absurd hE (by simp)
          | ok q2 =>
            obtain ⟨rest, r3⟩ := q2
            simp only [hrest] at hE
            simp only [Except.ok.injEq, Prod.mk.injEq] at hE
            obtain ⟨v, e0, E', _, _, hconsObj⟩ := ih (.obj (some tc)) r1 evs r2 hobj
            obtain ⟨vs', hconsL⟩ := ih (.listBody (idx + 1)) r2 rest r3 hrest
            refine ⟨v :: vs', fun tail => ?_⟩
            rw [← hE.1, List.cons_append, makeListItemsP_item, List.append_assoc]
            simp only [hconsObj (rest ++ tail), hconsL tail]
    | dictBody =>
      simp only [readEv] at hE
      cases hb : r.read_byte with
      | error e => simp only [hb] at hE; exact absurd hE (by simp)
      | ok p =>
        obtain ⟨tc, r1⟩ := p
        simp only [hb] at hE
        by_cases htc : tc = 0
        · simp only [if_pos htc, Except.ok.injEq, Prod.mk.injEq] at hE
          refine ⟨[], fun tail => ?_⟩
          rw [← hE.1]
          exact makeDictItemsP_end tail
        simp only [if_neg htc] at hE
        cases hcs : r1.read_cstring with
        | error e => simp only [hcs] at hE; exact absurd hE (by simp)
        | ok q0 =>
          obtain ⟨k, r2⟩ := q0
          simp only [hcs] at hE
          cases hobj : readEv fuel (.obj (some tc)) r2 with
          | error e => simp only [hobj] at hE; exact absurd hE (by simp)
          | ok q =>
            obtain ⟨evs, r3⟩ := q
            simp only [hobj] at hE
            cases hrest : readEv fuel .dictBody r3 with
            | error e => simp only [hrest] at hE; exact absurd hE (by simp)
            | ok q2 =>
              obtain ⟨rest, r4⟩ := q2
              simp only [hrest] at hE
              simp only [Except.ok.injEq, Prod.mk.injEq] at hE
              obtain ⟨v, e0, E', _, _, hconsObj⟩ := ih (.obj (some tc)) r2 evs r3 hobj
              obtain ⟨kvs', hconsD⟩ := ih .dictBody r3 rest r4 hrest
              refine ⟨(k, v) :: kvs', fun tail => ?_⟩
              rw [← hE.1, List.cons_append, makeDictItemsP_key, List.append_assoc]
              simp only [hconsObj (rest ++ tail), hconsD tail]
    | blobChunks toRead =>
      simp only [readEv] at hE
      by_cases ht : toRead = 0
      · simp only [if_pos ht, Except.ok.injEq, Prod.mk.injEq] at hE
        refine ⟨[], fun tail => ?_⟩
        rw [← hE.1]
        exact makeBlobChunksP_end tail
      simp only [if_neg ht] at hE
      cases hrd : r.read (some (min toRead 4096)) with
      | error e => simp only [hrd] at hE; exact absurd hE (by simp)
      | ok q =>
        obtain ⟨b, r1⟩ := q
        simp only [hrd] at hE
        cases hrest : readEv fuel (.blobChunks (toRead - min toRead 4096)) r1 with
        | error e => simp only [hrest] at hE; exact absurd hE (by simp)
        | ok q2 =>
          obtain ⟨rest, r2⟩ := q2
          simp only [hrest] at hE
          simp only [Except.ok.injEq, Prod.mk.injEq] at hE
          obtain ⟨cs, hcons⟩ := ih (.blobChunks (toRead - min toRead 4096)) r1 rest r2 hrest
          refine ⟨b :: cs, fun tail => ?_⟩
          rw [← hE.1, List.cons_append, makeBlobChunksP_chunk, hcons tail]

end FB2

namespace FB2

theorem star_matches_one (x : StackFrame) :
    selectorAnyMatches [[(none : Option Label)]] [x] = true := by
  simp [selectorAnyMatches, selector_matches]

/-- When the stack matches, the loop materializes the subtree starting
at the current event (whatever kind of object it starts) and then
continues after it. -/
theorem iterParseLoop_yield (sels : List Selector) (stack : List StackFrame)
    (e0 : Event) (tl : List Event) (hstart : isObjStart e0 = true)
    (hmatch : selectorAnyMatches sels stack = true) :
    iterParseLoop sels stack (e0 :: tl)
      = match makeObjectP (e0 :: tl) with
        | .error err => .error err
        | .ok (v, rest') =>
          match iterParseLoop sels stack rest' with
          | .error err => .error err
          | .ok vs => .ok (v :: vs) := by
  cases e0 with
  | value v0 =>
    simp only [iterParseLoop, hmatch, if_true]
    cases hmo : makeObject (.value v0 :: tl) with
    | error e => simp [makeObjectP, hmo]
    | ok p =>
      obtain ⟨v, rest', hb⟩ := p
      simp [makeObjectP, hmo]
  | list_start =>
    simp only [iterParseLoop, hmatch, if_true]
    cases hmo : makeObject (.list_start :: tl) with
    | error e => simp [makeObjectP, hmo]
    | ok p =>
      obtain ⟨v, rest', hb⟩ := p
      simp [makeObjectP, hmo]
  | dict_start =>
    simp only [iterParseLoop, hmatch, if_true]
    cases hmo : makeObject (.dict_start :: tl) with
    | error e => simp [makeObjectP, hmo]
    | ok p =>
      obtain ⟨v, rest', hb⟩ := p
      simp [makeObjectP, hmo]
  | blob_start n =>
    simp only [iterParseLoop, hmatch, if_true]
    cases hmo : makeObject (.blob_start n :: tl) with
    | error e => simp [makeObjectP, hmo]
    | ok p =>
      obtain ⟨v, rest', hb⟩ := p
      simp [makeObjectP, hmo]
  | list_item i => exact absurd hstart (by simp [isObjStart])
  | list_end => exact absurd hstart (by simp [isObjStart])
  | dict_key k => exact absurd hstart (by simp [isObjStart])
  | dict_end => exact absurd hstart (by simp [isObjStart])
  | blob_chunk b => exact absurd hstart (by simp [isObjStart])
  | blob_end => exact absurd hstart (by simp [isObjStart])

/-- Walking the event stream of a list body with the `*` selector and a
single stack frame yields exactly the values `make_object`'s list loop
collects from the same events. -/
theorem readEv_listBody_iterparse (fuel : Nat) :
    ∀ (idx : Nat) (r : Reader) (body : List Event) (r' : Reader) (vs : List Value),
      readEv fuel (.listBody idx) r = .ok (body, r') →
      makeListItemsP body = .ok (vs, []) →
      ∀ frame : StackFrame, iterParseLoop [[(none : Option Label)]] [frame] body = .ok vs := by
  induction fuel with
  | zero => intro idx r body r' vs hE _ _; exact absurd hE (by simp [readEv])
  | succ fuel ih =>
    intro idx r body r' vs hE hml frame
    simp only [readEv] at hE
    cases hb : r.read_byte with
    | error e => simp only [hb] at hE; exact absurd hE (by simp)
    | ok p =>
      obtain ⟨tc, r1⟩ := p
      simp only [hb] at hE
      by_cases htc : tc = 0
      · simp only [if_pos htc, Except.ok.injEq, Prod.mk.injEq] at hE
        rw [← hE.1] at hml
        rw [makeListItemsP_end] at hml
        simp only [Except.ok.injEq, Prod.mk.injEq] at hml
        rw [← hE.1, ← hml.1]
        simp [iterParseLoop]
      · simp only [if_neg htc] at hE
        cases hobj : readEv fuel (.obj (some tc)) r1 with
        | error e => simp only [hobj] at hE; exact absurd hE (by simp)
        | ok q =>
          obtain ⟨evs, r2⟩ := q
          simp only [hobj] at hE
          cases hrest : readEv fuel (.listBody (idx + 1)) r2 with
          | error e => simp only [hrest] at hE; exact absurd hE (by simp)
          | ok q2 =>
            obtain ⟨rest, r3⟩ := q2
            simp only [hrest, Except.ok.injEq, Prod.mk.injEq] at hE
            obtain ⟨v, e0, E', hevs, hstart, hconsObj⟩ :=
              readEv_consumed fuel (.obj (some tc)) r1 evs r2 hobj
            rw [← hE.1, makeListItemsP_item] at hml
            simp only [hconsObj rest] at hml
            cases hml2 : makeListItemsP rest with
            | error e => simp only [hml2] at hml; exact absurd hml (by simp)
            | ok p2 =>
              obtain ⟨vs', rest2⟩ := p2
              simp only [hml2, Except.ok.injEq, Prod.mk.injEq] at hml
              have hrest2 : rest2 = [] := hml.2
              have hml3 : makeListItemsP rest = .ok (vs', []) := by
                rw [hml2, hrest2]
              have hIH := ih (idx + 1) r2 rest r3 vs' hrest hml3 (some (.idx idx))
              rw [← hE.1]
              have hstep1 : iterParseLoop [[(none : Option Label)]] [frame]
                  (.list_item idx :: (evs ++ rest))
                  = iterParseLoop [[(none : Option Label)]] [some (.idx idx)] (evs ++ rest) := by
                simp [iterParseLoop]
              rw [hstep1, hevs, List.cons_append,
                iterParseLoop_yield _ _ _ _ hstart (star_matches_one _)]
              have hcons2 : makeObjectP (e0 :: (E' ++ rest)) = .ok (v, rest) := by
                rw [← List.cons_append, ← hevs]
                exact hconsObj rest
              simp only [hcons2, hIH, ← hml.1]

end FB2

namespace FB2

theorem star_not_match_nil :
    selectorAnyMatches [[(none : Option Label)]] [] = false := by
  simp [selectorAnyMatches, selector_matches]

/-- Claim C7.  For every well-formed input whose top-level object is a
list, streaming with the selector `*` yields exactly the elements of
the eagerly decoded list, in order. -/
theorem stream_star_eq_decode_elements (fuel : Nat) (file : List Nat) (xs : List Value)
    (h : decode fuel file = .ok (.list xs)) :
    iterload fuel file [parse_selector [[0x2a]]] = .ok xs := by
  have hsel : parse_selector [[0x2a]] = [(none : Option Label)] := rfl
  rw [decode] at h
  cases hload : load fuel file with
  | error e => rw [hload] at h; exact absurd h (by simp)
  | ok p =>
    obtain ⟨v, r1⟩ := p
    rw [hload] at h
    simp only [Except.ok.injEq] at h
    rw [load] at hload
    cases hdtr : mkDecryptingTypeReader file with
    | error e => rw [hdtr] at hload; exact absurd hload (by simp)
    | ok r =>
      rw [hdtr] at hload
      simp only [SBParser.parse] at hload
      cases hread : readEv fuel (.obj none) r with
      | error e => simp only [hread] at hload; exact absurd hload (by simp)
      | ok q =>
        obtain ⟨E, r2⟩ := q
        simp only [hread] at hload
        cases hmoE : makeObjectP E with
        | error e => simp only [hmoE] at hload; exact absurd hload (by simp)
        | ok p2 =>
          obtain ⟨v0, rest⟩ := p2
          simp only [hmoE] at hload
          by_cases hrest : rest.isEmpty
          · simp only [if_pos hrest, Except.ok.injEq, Prod.mk.injEq] at hload
            have hv0 : v0 = .list xs := by rw [hload.1, h]
            have hrestnil : rest = [] := by
              cases rest with
              | nil => rfl
              | cons a l => simp [List.isEmpty] at hrest
            rw [iterload, hdtr]
            simp only [SBParser.iterparse, hread, hsel]
            -- Analyze the shape of E by unfolding the generator one step.
            cases fuel with
            | zero => exact absurd hread (by simp [readEv])
            | succ f =>
              simp only [readEv] at hread
              cases hstep : r.read_byte with
              | error e => simp only [hstep] at hread; exact absurd hread (by simp)
              | ok pb =>
                obtain ⟨b, rb⟩ := pb
                simp only [hstep] at hread
                by_cases hc0 : b &&& 0x1f = 0
                · simp only [if_pos hc0, Except.ok.injEq, Prod.mk.injEq] at hread
                  rw [← hread.1, makeObjectP_value] at hmoE
                  simp only [Except.ok.injEq, Prod.mk.injEq] at hmoE
                  rw [← hmoE.1] at hv0
                  exact absurd hv0 (by simp)
                simp only [if_neg hc0] at hread
                by_cases hc1 : b &&& 0x1f = 1
                · simp only [if_pos hc1] at hread
                  cases hvr : rb.read_varint with
                  | error e => simp only [hvr] at hread; exact absurd hread (by simp)
                  | ok qv =>
                    obtain ⟨n, rv⟩ := qv
                    simp only [hvr] at hread
                    cases hlb : readEv f (.listBody 0) rv with
                    | error e => simp only [hlb] at hread; exact absurd hread (by simp)
                    | ok qb =>
                      obtain ⟨body, r3⟩ := qb
                      simp only [hlb, Except.ok.injEq, Prod.mk.injEq] at hread
                      rw [← hread.1, makeObjectP_list_start] at hmoE
                      cases hmlb : makeListItemsP body with
                      | error e => simp only [hmlb] at hmoE; exact absurd hmoE (by simp)
                      | ok pl =>
                        obtain ⟨vs', rest'⟩ := pl
                        simp only [hmlb, Except.ok.injEq, Prod.mk.injEq] at hmoE
                        have hvs : vs' = xs := by
                          have hx := hmoE.1
                          rw [hv0] at hx
                          exact Value.list.inj hx
                        have hml0 : makeListItemsP body = .ok (xs, []) := by
                          rw [hmlb, hvs, hmoE.2, hrestnil]
                        rw [← hread.1]
                        have hloop : iterParseLoop [[(none : Option Label)]] []
                            (.list_start :: body)
                            = iterParseLoop [[(none : Option Label)]] [none] body := by
                          simp [iterParseLoop, star_not_match_nil]
                        rw [hloop]
                        exact readEv_listBody_iterparse f 0 rv body r3 xs hlb hml0 none
                simp only [if_neg hc1] at hread
                by_cases hc2 : b &&& 0x1f = 2
                · simp only [if_pos hc2] at hread
                  cases hvr : rb.read_varint with
                  | error e => simp only [hvr] at hread; exact absurd hread (by simp)
                  | ok qv =>
                    obtain ⟨n, rv⟩ := qv
                    simp only [hvr] at hread
                    cases hdb : readEv f .dictBody rv with
                    | error e => simp only [hdb] at hread; exact absurd hread (by simp)
                    | ok qb =>
                      obtain ⟨body, r3⟩ := qb
                      simp only [hdb, Except.ok.injEq, Prod.mk.injEq] at hread
                      rw [← hread.1, makeObjectP_dict_start] at hmoE
                      cases hmdb : makeDictItemsP body with
                      | error e => simp only [hmdb] at hmoE; exact absurd hmoE (by simp)
                      | ok pl =>
                        obtain ⟨kvs, rest'⟩ := pl
                        simp only [hmdb, Except.ok.injEq, Prod.mk.injEq] at hmoE
                        rw [← hmoE.1] at hv0
                        exact absurd hv0 (by simp)
                simp only [if_neg hc2] at hread
                by_cases hc5 : b &&& 0x1f = 5
                · simp only [if_pos hc5] at hread
                  cases hrd : rb.read (some 8) with
                  | error e => simp only [hrd] at hread; exact absurd hread (by simp)
                  | ok qd =>
                    obtain ⟨bs, r3⟩ := qd
                    simp only [hrd, Except.ok.injEq, Prod.mk.injEq] at hread
                    rw [← hread.1, makeObjectP_value] at hmoE
                    simp only [Except.ok.injEq, Prod.mk.injEq] at hmoE
                    rw [← hmoE.1] at hv0
                    exact absurd hv0 (by simp)
                simp only [if_neg hc5] at hread
                by_cases hc6 : b &&& 0x1f = 6
                · simp only [if_pos hc6] at hread
                  cases hrd : rb.read_byte with
                  | error e => simp only [hrd] at hread; exact absurd hread (by simp)
                  | ok qd =>
                    obtain ⟨b2, r3⟩ := qd
                    simp only [hrd, Except.ok.injEq, Prod.mk.injEq] at hread
                    rw [← hread.1, makeObjectP_value] at hmoE
                    simp only [Except.ok.injEq, Prod.mk.injEq] at hmoE
                    rw [← hmoE.1] at hv0
                    exact absurd hv0 (by simp)
                simp only [if_neg hc6] at hread
                by_cases hc7 : b &&& 0x1f = 7
                · simp only [if_pos hc7] at hread
                  cases hrd : rb.read_bstring with
                  | error e => simp only [hrd] at hread; exact absurd hread (by simp)
                  | ok qd =>
                    obtain ⟨s, r3⟩ := qd
                    simp only [hrd, Except.ok.injEq, Prod.mk.injEq] at hread
                    rw [← hread.1, makeObjectP_value] at hmoE
                    simp only [Except.ok.injEq, Prod.mk.injEq] at hmoE
                    rw [← hmoE.1] at hv0
                    exact absurd hv0 (by simp)
                simp only [if_neg hc7] at hread
                by_cases hc8 : b &&& 0x1f = 8
                · simp only [if_pos hc8] at hread
                  cases hrd : rb.read_i32 with
                  | error e => simp only [hrd] at hread; exact absurd hread (by simp)
                  | ok qd =>
                    obtain ⟨n2, r3⟩ := qd
                    simp only [hrd, Except.ok.injEq, Prod.mk.injEq] at hread
                    rw [← hread.1, makeObjectP_value] at hmoE
                    simp only [Except.ok.injEq, Prod.mk.injEq] at hmoE
                    rw [← hmoE.1] at hv0
                    exact absurd hv0 (by simp)
                simp only [if_neg hc8] at hread
                by_cases hc9 : b &&& 0x1f = 9
                · simp only [if_pos hc9] at hread
                  cases hrd : rb.read_i64 with
                  | error e => simp only [hrd] at hread; exact absurd hread (by simp)
                  | ok qd =>
                    obtain ⟨n2, r3⟩ := qd
                    simp only [hrd, Except.ok.injEq, Prod.mk.injEq] at hread
                    rw [← hread.1, makeObjectP_value] at hmoE
                    simp only [Except.ok.injEq, Prod.mk.injEq] at hmoE
                    rw [← hmoE.1] at hv0
                    exact absurd hv0 (by simp)
                simp only [if_neg hc9] at hread
                by_cases hc15 : b &&& 0x1f = 15
                · simp only [if_pos hc15] at hread
                  cases hrd : rb.read (some 16) with
                  | error e => simp only [hrd] at hread; exact absurd hread (by simp)
                  | ok qd =>
                    obtain ⟨bs, r3⟩ := qd
                    simp only [hrd] at hread
                    by_cases hlen : bs.length ≠ 16
                    · simp only [if_pos hlen] at hread
                      exact absurd hread (by simp)
                    · simp only [if_neg hlen, Except.ok.injEq, Prod.mk.injEq] at hread
                      rw [← hread.1, makeObjectP_value] at hmoE
                      simp only [Except.ok.injEq, Prod.mk.injEq] at hmoE
                      rw [← hmoE.1] at hv0
                      exact absurd hv0 (by simp)
                simp only [if_neg hc15] at hread
                by_cases hc16 : b &&& 0x1f = 16
                · simp only [if_pos hc16] at hread
                  cases hrd : rb.read (some 20) with
                  | error e => simp only [hrd] at hread; exact absurd hread (by simp)
                  | ok qd =>
                    obtain ⟨bs, r3⟩ := qd
                    simp only [hrd, Except.ok.injEq, Prod.mk.injEq] at hread
                    rw [← hread.1, makeObjectP_value] at hmoE
                    simp only [Except.ok.injEq, Prod.mk.injEq] at hmoE
                    rw [← hmoE.1] at hv0
                    exact absurd hv0 (by simp)
                simp only [if_neg hc16] at hread
                by_cases hc19 : b &&& 0x1f = 19
                · simp only [if_pos hc19] at hread
                  cases hvr : rb.read_varint with
                  | error e => simp only [hvr] at hread; exact absurd hread (by simp)
                  | ok qv =>
                    obtain ⟨n, rv⟩ := qv
                    simp only [hvr] at hread
                    cases hbc : readEv f (.blobChunks n) rv with
                    | error e => simp only [hbc] at hread; exact absurd hread (by simp)
                    | ok qb =>
                      obtain ⟨chunks, r3⟩ := qb
                      simp only [hbc, Except.ok.injEq, Prod.mk.injEq] at hread
                      rw [← hread.1, makeObjectP_blob_start] at hmoE
                      cases hmbc : makeBlobChunksP chunks with
                      | error e => simp only [hmbc] at hmoE; exact absurd hmoE (by simp)
                      | ok pl =>
                        obtain ⟨cs, rest'⟩ := pl
                        simp only [hmbc, Except.ok.injEq, Prod.mk.injEq] at hmoE
                        rw [← hmoE.1] at hv0
                        exact absurd hv0 (by simp)
                simp only [if_neg hc19] at hread
                exact absurd hread (by simp)
          · simp only [if_neg hrest] at hload
            exact absurd hload (by simp)

end FB2

namespace FB2

theorem stream_star_eq_decode_elements_witness :
    decode 99 (0x01 :: ([0x05] ++ c2body)) = .ok (.list [.i32 1, .i32 2, .i32 3])
    ∧ iterload 99 (0x01 :: ([0x05] ++ c2body)) [parse_selector [[0x2a]]]
        = .ok [.i32 1, .i32 2, .i32 3] := by
  have h0 : mkDecryptingTypeReader (0x01 :: ([0x05] ++ c2body))
      = .ok ⟨0x01 :: ([0x05] ++ c2body), 0, 18, none⟩ := rfl
  have h1 : readEv 99 (.obj none) ⟨0x01 :: ([0x05] ++ c2body), 0, 18, none⟩
      = .ok (c2events, ⟨0x01 :: ([0x05] ++ c2body), 18, 18, none⟩) := rfl
  have hdec : decode 99 (0x01 :: ([0x05] ++ c2body))
      = .ok (.list [.i32 1, .i32 2, .i32 3]) := by
    simp only [decode, load, h0, SBParser.parse, h1]
    simp [makeObjectP, makeObject, makeListItems, c2events]
  exact ⟨hdec, stream_star_eq_decode_elements 99 _ _ hdec⟩

end FB2

namespace FB2

/-! ## C9: `Bundle.__init__` registration of bundle files -/

/-- The byte string of the Python identifier / dict key `bundles`. -/
def bundlesKey : List Nat := [0x62, 0x75, 0x6e, 0x64, 0x6c, 0x65, 0x73]

/-- The key `id`. -/
def idKey : List Nat := [0x69, 0x64]

/-- The key `offset`. -/
def offsetKey : List Nat := [0x6f, 0x66, 0x66, 0x73, 0x65, 0x74]

/-- The key `size`. -/
def sizeKey : List Nat := [0x73, 0x69, 0x7a, 0x65]

/-- Python dict subscript on the association-list representation. -/
def dictLookup (kvs : List (List Nat × Value)) (k : List Nat) : Option Value :=
  match kvs with
  | [] => none
  | (k', v) :: rest => if k' == k then some v else dictLookup rest k

/-- `key in dict`. -/
def hasKey (kvs : List (List Nat × Value)) (k : List Nat) : Bool :=
  kvs.any fun p => p.1 == k

/-- The fields `BundleFile.__init__` stores from its `id`, `offset` and
`size` arguments (the `bundle` back-reference, used only to recompose
the `.sb` path, is omitted from the state). -/
structure BundleFile where
  id : Value
  offset : Value
  size : Value

/-- The call `BundleFile(self, **bundle)`: the `bundle` parameter is
filled positionally by the `Bundle` instance, and the entry dict's keys
are passed as keyword arguments, which Python matches by name against
the remaining parameters `id`, `offset` and `size` — every key must be
one of those three names and all three must be present, otherwise the
call raises `TypeError`. -/
def callBundleFile (entries : List (List Nat × Value)) : Except PyErr BundleFile :=
  if (entries.all fun p => p.1 == idKey || p.1 == offsetKey || p.1 == sizeKey)
      && hasKey entries idKey && hasKey entries offsetKey && hasKey entries sizeKey then
    match dictLookup entries idKey, dictLookup entries offsetKey,
        dictLookup entries sizeKey with
    | some i, some o, some s => .ok ⟨i, o, s⟩
    | _, _, _ => .error .typeErrorCall
  else .error .typeErrorCall

/-- Python's `name in s` on a string: a contiguous substring test. -/
def substrIn (needle : List Nat) : List Nat → Bool
  | [] => needle == []
  | c :: t => ((c :: t).take needle.length == needle) || substrIn needle t

/-- Python's `name in xs` on a list: `==` against each element in turn.
An element compares equal to the Python string `name` only when it is
itself a decoded string with those bytes: `None`, booleans, numbers,
nested lists/dicts and the wrapper objects (`UUID`, `SHA1`, `Unknown`,
`Blob`, whose `__eq__` requires an identical type) never equal a
str. -/
def pyStrMem (needle : List Nat) (xs : List Value) : Bool :=
  xs.any fun v => match v with
    | .str s => s == needle
    | _ => false

/-- One iteration of the `for bundle in self.root['bundles']` loop:
entries with both a `size` and an `offset` key trigger
`self.bundle_files[bundle['id']] = BundleFile(self, **bundle)` (the
right-hand side is evaluated before the subscript, so a `TypeError`
from the call precedes any `KeyError`); dict entries lacking one of the
keys are skipped.  For a non-dict entry, Python's `'size' in bundle`
decides the branch: on a str it is a substring test and on a list an
element-equality test, and when both names are found the `**bundle`
splat on a non-mapping raises `TypeError`; on `None`, booleans,
numbers, `UUID` and the byte wrappers (`SHA1`, `Unknown`, `Blob`),
which support neither containment nor iteration, the `in` test itself
raises `TypeError`.  `bundle_files` is kept as the assignment list in
order; Python's dict keeps one binding per id with the last assignment
winning. -/
def bundleStep (acc : Except PyErr (List (Value × BundleFile))) (bundle : Value) :
    Except PyErr (List (Value × BundleFile)) :=
  match acc with
  | .error e => .error e
  | .ok files =>
    match bundle with
    | .dict d =>
      if hasKey d sizeKey && hasKey d offsetKey then
        match callBundleFile d with
        | .error e => .error e
        | .ok bf =>
          match dictLookup d idKey with
          | some idv => .ok (files ++ [(idv, bf)])
          | none => .error .keyError
      else .ok files
    | .str s =>
      if substrIn sizeKey s && substrIn offsetKey s then .error .typeErrorCall
      else .ok files
    | .list xs =>
      if pyStrMem sizeKey xs && pyStrMem offsetKey xs then .error .typeErrorCall
      else .ok files
    | _ => .error .typeErrorCall

/-- The state `Bundle.__init__` leaves behind: the decoded TOC root and
the registered bundle files. -/
structure BundleState where
  root : Value
  bundle_files : List (Value × BundleFile)

/-- `Bundle.__init__` from the decoded TOC root (the
`load(basename + '.toc')` step is the decoder verified above; this
takes its result): store the root, then register a `BundleFile` for
each entry of `root['bundles']` that has both `size` and `offset`. -/
def bundleInit (root : Value) : Except PyErr BundleState :=
  match root with
  | .dict kvs =>
    match dictLookup kvs bundlesKey with
    | none => .error .keyError
    | some (.list bundles) =>
      match bundles.foldl bundleStep (.ok []) with
      | .error e => .error e
      | .ok files => .ok ⟨root, files⟩
    | some _ => .error .typeErrorCall
  | _ => .error .typeErrorCall

/-- The registrations one entry contributes when the constructor call
succeeds. -/
def entryReg (e : Value) : List (Value × BundleFile) :=
  match e with
  | .dict d =>
    if hasKey d sizeKey && hasKey d offsetKey then
      match dictLookup d idKey, dictLookup d offsetKey, dictLookup d sizeKey with
      | some i, some o, some s => [(i, ⟨i, o, s⟩)]
      | _, _, _ => []
    else []
  | _ => []

/-- All registrations of a bundles list. -/
def bundleRegList (bundles : List Value) : List (Value × BundleFile) :=
  bundles.flatMap entryReg

theorem hasKey_lookup (kvs : List (List Nat × Value)) (k : List Nat)
    (h : hasKey kvs k = true) : ∃ v, dictLookup kvs k = some v := by
  induction kvs with
  | nil => simp [hasKey] at h
  | cons p rest ih =>
    by_cases hp : p.1 == k
    · exact ⟨p.2, by simp [dictLookup, hp]⟩
    · have h' : hasKey rest k = true := by
        simp only [hasKey, List.any_cons, Bool.or_eq_true] at h
        rcases h with h | h
        · exact absurd h (by simp_all)
        · simpa [hasKey] using h
      obtain ⟨v, hv⟩ := ih h'
      exact ⟨v, by simp [dictLookup, hp, hv]⟩

theorem callBundleFile_ok (d : List (List Nat × Value))
    (hkeys : ∀ k ∈ d.map Prod.fst, k = idKey ∨ k = offsetKey ∨ k = sizeKey)
    (hid : hasKey d idKey = true) (hoff : hasKey d offsetKey = true)
    (hsz : hasKey d sizeKey = true)
    (i o s : Value)
    (hlid : dictLookup d idKey = some i)
    (hlo : dictLookup d offsetKey = some o)
    (hls : dictLookup d sizeKey = some s) :
    callBundleFile d = .ok ⟨i, o, s⟩ := by
  have hall : (d.all fun p => p.1 == idKey || p.1 == offsetKey || p.1 == sizeKey) = true := by
    rw [List.all_eq_true]
    intro p hp
    have := hkeys p.1 (List.mem_map_of_mem Prod.fst hp)
    rcases this with h | h | h <;> simp [h]
  rw [callBundleFile, if_pos (by rw [hall, hid, hoff, hsz]; rfl), hlid, hlo, hls]

theorem bundleFold_eq (bundles : List Value)
    (hdict : ∀ e ∈ bundles, ∃ d, e = Value.dict d)
    (hgood : ∀ e ∈ bundles, ∀ d, e = Value.dict d →
        (hasKey d sizeKey && hasKey d offsetKey) = true →
        (∀ k ∈ d.map Prod.fst, k = idKey ∨ k = offsetKey ∨ k = sizeKey)
        ∧ hasKey d idKey = true) :
    ∀ files : List (Value × BundleFile),
      bundles.foldl bundleStep (.ok files) = .ok (files ++ bundleRegList bundles) := by
  induction bundles with
  | nil => intro files; simp [bundleRegList]
  | cons e rest ih =>
    intro files
    have hdict' : ∀ e' ∈ rest, ∃ d, e' = Value.dict d :=
      fun e' he' => hdict e' (List.mem_cons_of_mem e he')
    have hgood' : ∀ e' ∈ rest, ∀ d, e' = Value.dict d →
        (hasKey d sizeKey && hasKey d offsetKey) = true →
        (∀ k ∈ d.map Prod.fst, k = idKey ∨ k = offsetKey ∨ k = sizeKey)
        ∧ hasKey d idKey = true :=
      fun e' he' => hgood e' (List.mem_cons_of_mem e he')
    obtain ⟨d, rfl⟩ := hdict e (List.mem_cons_self e rest)
    rw [List.foldl_cons]
    by_cases hcond : (hasKey d sizeKey && hasKey d offsetKey) = true
    · obtain ⟨hkeys, hid⟩ := hgood (Value.dict d) (List.mem_cons_self _ _) d rfl hcond
      obtain ⟨i, hlid⟩ := hasKey_lookup d idKey hid
      obtain ⟨o, hlo⟩ := hasKey_lookup d offsetKey
        (by simp only [Bool.and_eq_true] at hcond; exact hcond.2)
      obtain ⟨s, hls⟩ := hasKey_lookup d sizeKey
        (by simp only [Bool.and_eq_true] at hcond; exact hcond.1)
      have hcall := callBundleFile_ok d hkeys hid
        (by simp only [Bool.and_eq_true] at hcond; exact hcond.2)
        (by simp only [Bool.and_eq_true] at hcond; exact hcond.1)
        i o s hlid hlo hls
      have hstep : bundleStep (.ok files) (.dict d) = .ok (files ++ [(i, ⟨i, o, s⟩)]) := by
        simp only [bundleStep, if_pos hcond, hcall, hlid]
      rw [hstep, ih hdict' hgood']
      simp only [bundleRegList, List.flatMap_cons, entryReg, if_pos hcond,
        hlid, hlo, hls, List.append_assoc]
    · have hstep : bundleStep (.ok files) (.dict d) = .ok files := by
        simp only [bundleStep, if_neg hcond]
      rw [hstep, ih hdict' hgood']
      simp only [bundleRegList, List.flatMap_cons, entryReg, if_neg hcond,
        List.nil_append]

end FB2

namespace FB2

/-- Claim C9 (amended).  When a `Bundle` is constructed from a decoded
TOC root whose `bundles` list holds only dict entries (Python raises
`TypeError` out of `'size' in bundle` or the `**bundle` splat on the
non-dict shapes), of which those carrying both `offset` and `size`
have exactly the keys `id`, `offset`, `size` (the condition the
`BundleFile(self, **bundle)` keyword-splat imposes), construction
succeeds; every such entry is registered as a `BundleFile` built from
its `id`, `offset` and `size` values; everything registered arises from
such an entry (so entries lacking `offset` or `size` are never
registered); and the full root — including the unregistered entries —
is retained in the bundle's state. -/
theorem bundle_init_registers (root : Value) (kvs : List (List Nat × Value))
    (bundles : List Value)
    (hroot : root = .dict kvs)
    (hb : dictLookup kvs bundlesKey = some (.list bundles))
    (hdict : ∀ e ∈ bundles, ∃ d, e = Value.dict d)
    (hgood : ∀ e ∈ bundles, ∀ d, e = Value.dict d →
        (hasKey d sizeKey && hasKey d offsetKey) = true →
        (∀ k ∈ d.map Prod.fst, k = idKey ∨ k = offsetKey ∨ k = sizeKey)
        ∧ hasKey d idKey = true) :
    bundleInit root = .ok ⟨root, bundleRegList bundles⟩
    ∧ (∀ d i o s, Value.dict d ∈ bundles →
        (hasKey d sizeKey && hasKey d offsetKey) = true →
        dictLookup d idKey = some i → dictLookup d offsetKey = some o →
        dictLookup d sizeKey = some s →
        (i, (⟨i, o, s⟩ : BundleFile)) ∈ bundleRegList bundles)
    ∧ (∀ p ∈ bundleRegList bundles, ∃ d, Value.dict d ∈ bundles
        ∧ (hasKey d sizeKey && hasKey d offsetKey) = true
        ∧ dictLookup d idKey = some p.1 ∧ p.2.id = p.1
        ∧ dictLookup d offsetKey = some p.2.offset
        ∧ dictLookup d sizeKey = some p.2.size) := by
  refine ⟨?_, ?_, ?_⟩
  · subst hroot
    simp only [bundleInit, hb]
    rw [bundleFold_eq bundles hdict hgood []]
    simp
  · intro d i o s hmem hcond hlid hlo hls
    have hparts := Bool.and_eq_true _ _ |>.mp hcond
    refine List.mem_flatMap.mpr ⟨.dict d, hmem, ?_⟩
    simp [entryReg, if_pos hcond, hlid, hlo, hls, hparts.1, hparts.2]
  · intro p hp
    obtain ⟨e, he, hpe⟩ := List.mem_flatMap.mp hp
    cases e with
    | dict d =>
      by_cases hcond : (hasKey d sizeKey && hasKey d offsetKey) = true
      · rw [entryReg, if_pos hcond] at hpe
        cases hli : dictLookup d idKey with
        | none => rw [hli] at hpe; simp at hpe
        | some i =>
          cases hlo : dictLookup d offsetKey with
          | none => rw [hli, hlo] at hpe; simp at hpe
          | some o =>
            cases hls : dictLookup d sizeKey with
            | none => rw [hli, hlo, hls] at hpe; simp at hpe
            | some s =>
              rw [hli, hlo, hls] at hpe
              simp only [List.mem_singleton] at hpe
              subst hpe
              exact ⟨d, he, hcond, hli, rfl, hlo, hls⟩
      · rw [entryReg, if_neg hcond] at hpe
        simp at hpe
    | null => simp [entryReg] at hpe
    | bool b => simp [entryReg] at hpe
    | i32 n => simp [entryReg] at hpe
    | i64 n => simp [entryReg] at hpe
    | str s => simp [entryReg] at hpe
    | uuid b => simp [entryReg] at hpe
    | sha1 b => simp [entryReg] at hpe
    | unknown c b => simp [entryReg] at hpe
    | blob b => simp [entryReg] at hpe
    | list xs => simp [entryReg] at hpe

/-- A TOC entry that carries `offset` and `size` along with one more
key (`sha1`). -/
def c9entry : Value :=
  .dict [(idKey, .str [0x61]), (offsetKey, .i32 1), (sizeKey, .i32 2),
    ([0x73, 0x68, 0x61, 0x31], .null)]

/-- A TOC root whose only bundle entry is `c9entry`. -/
def c9root : Value := .dict [(bundlesKey, .list [c9entry])]

/-- Counterexample to claim C9 as stated: this entry contains both
`offset` and `size` (and an `id`), yet it is not registered — the
keyword-splat call `BundleFile(self, **bundle)` receives the unexpected
keyword `sha1` and `Bundle` construction fails with `TypeError`. -/
theorem bundle_init_extra_key_typeerror :
    bundleInit c9root = .error .typeErrorCall
    ∧ ∀ st : BundleState, bundleInit c9root ≠ .ok st := by
  have h : bundleInit c9root = .error .typeErrorCall := rfl
  exact ⟨h, fun st hc => by rw [h] at hc; exact Except.noConfusion hc⟩

/-- An entry with exactly the keys `id`, `offset`, `size`. -/
def c9goodEntryA : Value :=
  .dict [(idKey, .str [0x61]), (offsetKey, .i32 1), (sizeKey, .i32 2)]

/-- A metadata-only entry (no `offset`/`size`). -/
def c9goodEntryB : Value := .dict [(idKey, .str [0x62])]

/-- A TOC root with one registrable and one metadata-only entry. -/
def c9goodRoot : Value := .dict [(bundlesKey, .list [c9goodEntryA, c9goodEntryB])]

theorem bundle_init_registers_witness :
    (bundleInit c9goodRoot
        = .ok ⟨c9goodRoot, bundleRegList [c9goodEntryA, c9goodEntryB]⟩
      ∧ (∀ d i o s, Value.dict d ∈ [c9goodEntryA, c9goodEntryB] →
          (hasKey d sizeKey && hasKey d offsetKey) = true →
          dictLookup d idKey = some i → dictLookup d offsetKey = some o →
          dictLookup d sizeKey = some s →
          (i, (⟨i, o, s⟩ : BundleFile)) ∈ bundleRegList [c9goodEntryA, c9goodEntryB])
      ∧ (∀ p ∈ bundleRegList [c9goodEntryA, c9goodEntryB], ∃ d,
          Value.dict d ∈ [c9goodEntryA, c9goodEntryB]
          ∧ (hasKey d sizeKey && hasKey d offsetKey) = true
          ∧ dictLookup d idKey = some p.1 ∧ p.2.id = p.1
          ∧ dictLookup d offsetKey = some p.2.offset
          ∧ dictLookup d sizeKey = some p.2.size))
    ∧ bundleRegList [c9goodEntryA, c9goodEntryB]
        = [(.str [0x61], (⟨.str [0x61], .i32 1, .i32 2⟩ : BundleFile))]
    ∧ bundleInit (.dict [(bundlesKey, .list [.null])]) = .error .typeErrorCall := by
  refine ⟨bundle_init_registers c9goodRoot
    [(bundlesKey, .list [c9goodEntryA, c9goodEntryB])]
    [c9goodEntryA, c9goodEntryB] rfl rfl ?_ ?_, rfl, rfl⟩
  · intro e he
    simp only [List.mem_cons, List.not_mem_nil, or_false] at he
    rcases he with rfl | rfl
    · exact ⟨_, rfl⟩
    · exact ⟨_, rfl⟩
  · intro e he d hed hcond
    simp only [List.mem_cons, List.not_mem_nil, or_false] at he
    rcases he with rfl | rfl
    · have hd := Value.dict.inj hed
      subst hd
      exact ⟨by decide, by decide⟩
    · have hd := Value.dict.inj hed
      subst hd
      exact absurd hcond (by decide)

end FB2
